import Mathlib

/-!
Verification of the availability reconciliation and alert-matching engine of
the pickleball scraper (`app/availability_service.py`, with the row types of
`app/models.py` and the session configuration of `app/db.py`).

The Python code is shallowly embedded: payload dictionaries become typed
records (a field read with `dict.get` is an `Option`; where the code
distinguishes a key that is absent from a key bound to `None`, the field is an
`Option (Option _)`), Python truthiness is modelled explicitly, and the
exceptions that `sync_availability` can raise (a `ValueError` from parsing a
malformed `maxReservationTime`, the `KeyError` from a location payload that
lacks `name`, a `TypeError` from iterating a `None` value) are modelled with
`Except Unit`.  `datetime` values are naive wall-clock timestamps: the stored
`slot_time_local` values are compared only within a single location, so the
timezone annotation that Python attaches and strips again (`normalize`) never
influences a comparison; the `astimezone(UTC)` conversion is threaded as an
explicit function parameter `utcOf`, since no property here depends on its
value.  The session of `app/db.py` is created with `autoflush=False`, so a
query issued during a cycle sees only rows committed before the cycle; the
model keeps committed rows and rows staged by the running cycle separate.
-/

/-- Naive wall-clock timestamp, the result of
`datetime.strptime(s, "%Y-%m-%d %H:%M:%S")` with the timezone annotation
ignored (see the module comment). -/
structure DateTime where
  year : Nat
  month : Nat
  day : Nat
  hour : Nat
  minute : Nat
  second : Nat
deriving DecidableEq, Repr

/-- The value of `datetime.date()`. -/
structure Date where
  year : Nat
  month : Nat
  day : Nat
deriving DecidableEq, Repr

/-- The value of `datetime.time()`. -/
structure TimeOfDay where
  hour : Nat
  minute : Nat
  second : Nat
deriving DecidableEq, Repr

def DateTime.dateOf (d : DateTime) : Date := ⟨d.year, d.month, d.day⟩

def DateTime.timeOf (d : DateTime) : TimeOfDay := ⟨d.hour, d.minute, d.second⟩

/-- Python `time` comparison (componentwise lexicographic). -/
def TimeOfDay.ltB (a b : TimeOfDay) : Bool :=
  decide (a.hour < b.hour ∨ (a.hour = b.hour ∧
    (a.minute < b.minute ∨ (a.minute = b.minute ∧ a.second < b.second))))

/-- Number of days in a month, as validated by the `datetime` constructor. -/
def daysInMonth (year month : Nat) : Nat :=
  if month = 2 then
    if year % 4 = 0 ∧ (year % 100 ≠ 0 ∨ year % 400 = 0) then 29 else 28
  else if month = 4 ∨ month = 6 ∨ month = 9 ∨ month = 11 then 30
  else 31

/-- Splits a character list at its maximal leading run of ASCII digits. -/
def digitRun : List Char → List Char × List Char
  | [] => ([], [])
  | c :: cs =>
    if c.isDigit then
      let (ds, rest) := digitRun cs
      (c :: ds, rest)
    else ([], c :: cs)

def natOfDigits (ds : List Char) : Nat :=
  ds.foldl (fun acc c => acc * 10 + (c.toNat - 48)) 0

/-- Reads a run of at most `cap` digits, the way the `strptime` regular
expression for a numeric directive does (the run must be non-empty and must
not continue past `cap` digits, since the character after the run has to match
the next literal of the format string). -/
def takeDigits (cap : Nat) (cs : List Char) : Option (Nat × List Char) :=
  let (ds, rest) := digitRun cs
  if ds.isEmpty then none
  else if cap < ds.length then none
  else some (natOfDigits ds, rest)

def expectChar (c : Char) : List Char → Option (List Char)
  | [] => none
  | x :: xs => if x = c then some xs else none

/-- `datetime.strptime(raw, "%Y-%m-%d %H:%M:%S")` as used by `parse_slot`:
the six numeric fields separated by the literal separators, the whole string
consumed, and the ranges checked by the `datetime` constructor. -/
def parseDT (s : String) : Option DateTime := Id.run do
  let cs := s.data
  let some (y, cs) := takeDigits 4 cs | none
  let some cs := expectChar '-' cs | none
  let some (mo, cs) := takeDigits 2 cs | none
  let some cs := expectChar '-' cs | none
  let some (d, cs) := takeDigits 2 cs | none
  let some cs := expectChar ' ' cs | none
  let some (h, cs) := takeDigits 2 cs | none
  let some cs := expectChar ':' cs | none
  let some (mi, cs) := takeDigits 2 cs | none
  let some cs := expectChar ':' cs | none
  let some (sec, cs) := takeDigits 2 cs | none
  if !cs.isEmpty then none
  else if 1 ≤ y ∧ 1 ≤ mo ∧ mo ≤ 12 ∧ 1 ≤ d ∧ d ≤ daysInMonth y mo ∧
      h ≤ 23 ∧ mi ≤ 59 ∧ sec ≤ 59 then
    some ⟨y, mo, d, h, mi, sec⟩
  else none

/-! ### Python value helpers -/

/-- Truthiness of an optional string (`None` and `""` are falsy). -/
def truthyS : Option String → Bool
  | none => false
  | some s => decide (s ≠ "")

/-- Python `a or b` on optional strings. -/
def pyOrS (a b : Option String) : Option String :=
  if truthyS a then a else b

/-- Python `dict.get(key, default)`: `none` is an absent key, `some v` a
present key bound to `v` (which may itself be `None`). -/
def fieldGet {α : Type} : Option (Option α) → Option α → Option α
  | none, d => d
  | some v, _ => v

/-- Python `int(s)` as applied to the pieces of a `maxReservationTime`
string (approximated by Lean's integer literal syntax). -/
def pyInt (s : String) : Option Int := s.toInt?

/-- ASCII lowercasing, the model of `str.lower()`. -/
def strLower (s : String) : String := ⟨s.data.map Char.toLower⟩

/-- Python `needle in hay` on strings (contiguous substring). -/
def hasSubstr (needle : List Char) : List Char → Bool
  | [] => needle.isEmpty
  | c :: t => needle.isPrefixOf (c :: t) || hasSubstr needle t

/-! ### Payload schema

Typed form of the provider payload consumed by `sync_availability`.  A field
the code reads with a single-argument `dict.get` is an `Option`; a field where
the code behaves differently for an absent key and for a key bound to `None`
is an `Option (Option _)` (outer `none` = key absent).  `location["id"]` is
read unconditionally (`payload["id"]`), so the schema makes it mandatory. -/

/-- One element of a court's `sports` list. -/
structure SportEntry where
  sportId : Option String
  id : Option String
deriving DecidableEq, Repr

/-- A `maxReservationTime` value, which the code probes with `isinstance`:
either a string or a number (numbers are modelled as integers). -/
inductive MaxTime where
  | str (s : String)
  | num (n : Int)
deriving DecidableEq, Repr

/-- A court block.  `allowedDurationMinutes` is the result of
`(court.get("allowedReservationDurations") or {}).get("minutes") or []`
collapsed into the list it yields; `availableSlots` keeps the absent/`None`
distinction because iterating a `None` raises. -/
structure CourtPayload where
  id : Option String
  name : Option String
  displayName : Option String
  sports : List SportEntry
  allowedDurationMinutes : List Int
  maxReservationTime : Option MaxTime
  availableSlots : Option (Option (List String))
deriving DecidableEq, Repr

structure ImagesPayload where
  thumbnail : Option String
deriving DecidableEq, Repr

structure LocationPayload where
  id : String
  name : Option (Option String)
  formattedAddress : Option (Option String)
  timezone : Option (Option String)
  images : Option (Option ImagesPayload)
  maxReservationTime : Option MaxTime
  courts : Option (Option (List CourtPayload))
deriving DecidableEq, Repr

/-- One element of the payload list; `entry.get("location") or {}` followed by
the emptiness guard collapses an absent, `None` or empty block into `none`. -/
structure Entry where
  location : Option LocationPayload
deriving DecidableEq, Repr

/-! ### Database rows (`app/models.py`) and the canonical record -/

/-- A `locations` row. -/
structure Location where
  id : String
  name : Option String
  address : Option String
  timezone : Option String
  imageUrl : Option String
deriving DecidableEq, Repr

/-- An `availability_slots` row (the synthetic primary key is not modelled:
rows are only ever located through the identity key or through their position
in the loaded list). -/
structure AvailabilitySlot where
  locationId : String
  courtId : String
  courtName : Option String
  sportId : Option String
  durationMinutes : Option Int
  slotTimeLocal : DateTime
  slotTimeUtc : DateTime
deriving DecidableEq, Repr

/-- A `watch_rules` row. -/
structure WatchRule where
  id : Nat
  locationId : String
  courtQuery : Option String
  targetDate : Option Date
  timeFrom : Option TimeOfDay
  timeTo : Option TimeOfDay
  contact : Option String
  active : Bool
  triggerCount : Option Int
  lastTriggeredAt : Option DateTime
deriving DecidableEq, Repr

/-- An `alerts` row. -/
structure Alert where
  watchId : Nat
  locationId : String
  courtId : String
  courtName : Option String
  slotTimeLocal : DateTime
  slotTimeUtc : DateTime
deriving DecidableEq, Repr

/-- The `SlotRecord` dataclass. -/
structure SlotRecord where
  locationId : String
  locationName : Option String
  locationAddress : Option String
  imageUrl : Option String
  timezone : String
  courtId : String
  courtName : Option String
  sportId : Option String
  slotTimeLocal : DateTime
  slotTimeUtc : DateTime
  durationMinutes : Option Int
deriving DecidableEq, Repr

/-- The committed database state visible to queries during a cycle. -/
structure DB where
  locations : List Location
  slots : List AvailabilitySlot
  watches : List WatchRule
  alerts : List Alert
deriving DecidableEq, Repr

/-- The settings fields `sync_availability` reads. -/
structure Settings where
  timezone : String
  pickleballSportId : Option String
deriving DecidableEq, Repr

/-- The slot identity key `(location_id, court_id, slot_time_local)` with the
timezone annotation stripped (`normalize`). -/
abbrev SlotKey := String × String × DateTime

def AvailabilitySlot.key (r : AvailabilitySlot) : SlotKey :=
  (r.locationId, r.courtId, r.slotTimeLocal)

def SlotRecord.key (r : SlotRecord) : SlotKey :=
  (r.locationId, r.courtId, r.slotTimeLocal)

/-! ### `upsert_location` -/

/-- Replaces the row whose primary key matches `l.id` (the in-place ORM
mutation of the loaded object). -/
def replaceById (locs : List Location) (l : Location) : List Location :=
  locs.map (fun l0 => if l0.id = l.id then l else l0)

/-- `upsert_location`.  The error case is the `KeyError` raised by
`payload["name"]` when a new row is created from a payload without a name. -/
def upsertLocation (locs : List Location) (p : LocationPayload) :
    Except Unit (List Location × Location) :=
  let imageUrl : Option String :=
    match p.images with
    | some (some img) => img.thumbnail
    | _ => none
  match locs.find? (fun l => l.id = p.id) with
  | none =>
    match p.name with
    | none => .error ()
    | some nm =>
      let loc : Location :=
        ⟨p.id, nm, fieldGet p.formattedAddress none, fieldGet p.timezone none, imageUrl⟩
      .ok (locs ++ [loc], loc)
  | some l =>
    let l' : Location :=
      { l with
        name := fieldGet p.name l.name
        address := fieldGet p.formattedAddress l.address
        timezone := fieldGet p.timezone l.timezone
        imageUrl := pyOrS imageUrl l.imageUrl }
    .ok (replaceById locs l', l')

/-! ### Duration resolution -/

def DEFAULT_DURATION_MINUTES : Int := 60

/-- Maximum of a list of integers (`max(allowed_minutes)`; only applied to
non-empty lists). -/
def listMax : List Int → Int
  | [] => 0
  | a :: rest => rest.foldl max a

/-- `h, m, s = [int(part) for part in t.split(":")]` followed by
`h * 60 + m + (1 if s >= 30 else 0)`; `none` is the `ValueError` raised when
the string does not split into three integers. -/
def parseHMS (t : String) : Option Int :=
  match (t.splitOn ":").map pyInt with
  | [some h, some m, some s] => some (h * 60 + m + (if 30 ≤ s then 1 else 0))
  | _ => none

/-- The location-level fallback of lines 122-130: `duration_minutes =
location_payload.get("maxReservationTime") or DEFAULT_DURATION_MINUTES`
followed by the `isinstance` chain. -/
def locFallback (lp : LocationPayload) : Except Unit Int :=
  match lp.maxReservationTime with
  | none => .ok DEFAULT_DURATION_MINUTES
  | some (.num n) =>
    if n = 0 then .ok DEFAULT_DURATION_MINUTES else .ok n
  | some (.str s) =>
    if s = "" then .ok DEFAULT_DURATION_MINUTES
    else if s.contains ':' then
      match parseHMS s with
      | some v => .ok v
      | none => .error ()
    else .ok DEFAULT_DURATION_MINUTES

/-- Lines 113-121: the court-level duration value (`duration_minutes` before
the `if not duration_minutes` fallback check), `none` when neither court
source defines it. -/
def courtLevelDuration (court : CourtPayload) : Except Unit (Option Int) :=
  if court.allowedDurationMinutes.isEmpty then
    match court.maxReservationTime with
    | some (.str s) =>
      if s ≠ "" ∧ s.contains ':' then
        match parseHMS s with
        | some v => .ok (some v)
        | none => .error ()
      else .ok none
    | _ => .ok none
  else .ok (some (listMax court.allowedDurationMinutes))

/-- Duration resolution for one court block (lines 113-130). -/
def resolveDuration (court : CourtPayload) (lp : LocationPayload) :
    Except Unit Int :=
  match courtLevelDuration court with
  | .error e => .error e
  | .ok (some v) => if v = 0 then locFallback lp else .ok v
  | .ok none => locFallback lp

/-! ### `sync_availability` -/

/-- The working state of one `sync_availability` call: the upserted location
rows, the loaded slot rows (whose metadata the loop may backfill in place),
the rows staged for insertion, the `incoming_keys` set (as a list used only
through membership) and the `new_records` list. -/
structure SyncSt where
  locations : List Location
  existingRows : List AvailabilitySlot
  addedRows : List AvailabilitySlot
  incomingKeys : List SlotKey
  newRecords : List SlotRecord
deriving DecidableEq, Repr

/-- Per-court context computed before the slot loop. -/
structure CourtCtx where
  courtId : String
  courtName : Option String
  sportId : Option String
  duration : Int
deriving DecidableEq, Repr

/-- Per-entry context: the upserted location object and the values computed on
lines 89-90. -/
structure EntryCtx where
  settings : Settings
  utcOf : String → DateTime → DateTime
  loc : Location
  lp : LocationPayload
  timezoneName : String
  imageUrl : Option String

/-- `incoming_keys.add key`. -/
def insertKey (ks : List SlotKey) (k : SlotKey) : List SlotKey :=
  if k ∈ ks then ks else ks ++ [k]

/-- The `existing_index` lookup.  The dictionary is built once from the loaded
rows, keyed by identity key; when several loaded rows share a key the later
one overwrites the earlier, so the lookup finds the last row with the key.
Backfills never touch key fields, so looking the row up in the current
`existingRows` list is the same as reading the mutated object found in the
index built at entry. -/
def findLastByKey (rows : List AvailabilitySlot) (k : SlotKey) :
    Option AvailabilitySlot :=
  match rows with
  | [] => none
  | r :: rest =>
    match findLastByKey rest k with
    | some x => some x
    | none => if r.key = k then some r else none

/-- In-place mutation of the object the index maps `k` to (the last row in
load order with key `k`). -/
def updateLastByKey (rows : List AvailabilitySlot) (k : SlotKey)
    (f : AvailabilitySlot → AvailabilitySlot) : List AvailabilitySlot :=
  match rows with
  | [] => []
  | r :: rest =>
    if rest.any (fun x => decide (x.key = k)) then r :: updateLastByKey rest k f
    else if r.key = k then f r :: rest
    else r :: updateLastByKey rest k f

/-- The metadata backfill of lines 142-155 applied to an already-persisted
row: duration when truthy and changed, sport id when truthy and changed,
court name only when truthy and the stored name is falsy. -/
def backfillSlot (r : AvailabilitySlot) (duration : Int)
    (sportId courtName : Option String) : AvailabilitySlot :=
  let r1 :=
    if duration ≠ 0 ∧ r.durationMinutes ≠ some duration then
      { r with durationMinutes := some duration } else r
  let r2 :=
    if truthyS sportId ∧ r1.sportId ≠ sportId then
      { r1 with sportId := sportId } else r1
  if truthyS courtName ∧ ¬ truthyS r2.courtName then
    { r2 with courtName := courtName } else r2

/-- Processing of one raw slot string (lines 132-183). -/
def processSlot (ec : EntryCtx) (cc : CourtCtx) (st : SyncSt) (raw : String) :
    SyncSt :=
  match parseDT raw with
  | none => st
  | some localDt =>
    let utcDt := ec.utcOf ec.timezoneName localDt
    let k : SlotKey := (ec.loc.id, cc.courtId, localDt)
    let st := { st with incomingKeys := insertKey st.incomingKeys k }
    match findLastByKey st.existingRows k with
    | some _ =>
      { st with
        existingRows :=
          updateLastByKey st.existingRows k
            (fun r => backfillSlot r cc.duration cc.sportId cc.courtName) }
    | none =>
      let row : AvailabilitySlot :=
        ⟨ec.loc.id, cc.courtId, cc.courtName, cc.sportId, some cc.duration,
          localDt, utcDt⟩
      let rec0 : SlotRecord :=
        ⟨ec.loc.id, ec.loc.name, ec.loc.address, ec.imageUrl, ec.timezoneName,
          cc.courtId, cc.courtName, cc.sportId, localDt, utcDt,
          some cc.duration⟩
      { st with
        addedRows := st.addedRows ++ [row],
        newRecords := st.newRecords ++ [rec0] }

/-- The set comprehension over a court's declared sports (the elements that
pass the truthiness guard). -/
def sportIdsOf (sports : List SportEntry) : List String :=
  sports.filterMap (fun sp =>
    match pyOrS sp.sportId sp.id with
    | some s => if s = "" then none else some s
    | none => none)

/-- The sport filter of lines 102-111: with a configured target sport the
court is skipped unless one of its declared sports matches. -/
def sportExcluded (settings : Settings) (court : CourtPayload) : Bool :=
  match settings.pickleballSportId with
  | none => false
  | some t =>
    if t = "" then false
    else
      match court.sports with
      | [] => true
      | _ => decide (t ∉ sportIdsOf court.sports)

/-- `court.get("availableSlots", [])` when it does not raise. -/
def availList (court : CourtPayload) : List String :=
  match court.availableSlots with
  | some (some l) => l
  | _ => []

/-- Processing of one court block (lines 93-183). -/
def processCourt (ec : EntryCtx) (st : SyncSt) (court : CourtPayload) :
    Except Unit SyncSt :=
  match court.id with
  | none => .ok st
  | some cid =>
    if cid = "" then .ok st
    else if sportExcluded ec.settings court then .ok st
    else
      match resolveDuration court ec.lp with
      | .error e => .error e
      | .ok dur =>
        let courtName := pyOrS court.name court.displayName
        let sportId :=
          match court.sports with
          | [] => none
          | sp :: _ => pyOrS sp.sportId sp.id
        match court.availableSlots with
        | some none => .error ()
        | some (some raws) =>
          .ok (raws.foldl (processSlot ec ⟨cid, courtName, sportId, dur⟩) st)
        | none => .ok st

/-- Error-absorbing fold step over a court list. -/
def stepCourt (ec : EntryCtx) (acc : Except Unit SyncSt) (c : CourtPayload) :
    Except Unit SyncSt :=
  match acc with
  | .error e => .error e
  | .ok st => processCourt ec st c

/-- The `timezone_name` computation of line 89. -/
def timezoneNameOf (settings : Settings) (lp : LocationPayload) : String :=
  match fieldGet lp.timezone none with
  | some s => if s = "" then settings.timezone else s
  | none => settings.timezone

/-- Processing of one payload entry (lines 83-183): the location guard, the
location upsert, the line-90 image lookup (which raises on a `None` `images`
value) and the court loop. -/
def processEntry (settings : Settings) (utcOf : String → DateTime → DateTime)
    (st : SyncSt) (entry : Entry) : Except Unit SyncSt :=
  match entry.location with
  | none => .ok st
  | some lp =>
    match upsertLocation st.locations lp with
    | .error e => .error e
    | .ok (locs', loc) =>
      let st := { st with locations := locs' }
      match lp.images with
      | some none => .error ()
      | imgs =>
        let imageUrl : Option String :=
          match imgs with
          | some (some img) => img.thumbnail
          | _ => none
        let ec : EntryCtx :=
          ⟨settings, utcOf, loc, lp, timezoneNameOf settings lp, imageUrl⟩
        match lp.courts with
        | some none => .error ()
        | some (some courts) => courts.foldl (stepCourt ec) (.ok st)
        | none => .ok st

def stepEntry (settings : Settings) (utcOf : String → DateTime → DateTime)
    (acc : Except Unit SyncSt) (e : Entry) : Except Unit SyncSt :=
  match acc with
  | .error err => .error err
  | .ok st => processEntry settings utcOf st e

/-- The main loop of `sync_availability` before the deletion pass. -/
def syncCore (utcOf : String → DateTime → DateTime) (settings : Settings)
    (db : DB) (payload : List Entry) : Except Unit SyncSt :=
  payload.foldl (stepEntry settings utcOf) (.ok ⟨db.locations, db.slots, [], [], []⟩)

/-- The deletion pass (lines 185-187): for every key of the index that the
cycle did not touch, the row the index maps it to — the last loaded row with
that key — is deleted. -/
def deleteStale (rows : List AvailabilitySlot) (incoming : List SlotKey) :
    List AvailabilitySlot :=
  match rows with
  | [] => []
  | r :: rest =>
    if r.key ∈ incoming then r :: deleteStale rest incoming
    else if rest.any (fun x => decide (x.key = r.key)) then
      r :: deleteStale rest incoming
    else deleteStale rest incoming

/-- `sync_availability`: the state visible after the cycle commits, paired
with the returned new-record list. -/
def syncAvailability (utcOf : String → DateTime → DateTime)
    (settings : Settings) (db : DB) (payload : List Entry) :
    Except Unit (DB × List SlotRecord) :=
  match syncCore utcOf settings db payload with
  | .error e => .error e
  | .ok st =>
    .ok ({ db with
            locations := st.locations,
            slots := deleteStale st.existingRows st.incomingKeys ++ st.addedRows },
          st.newRecords)

/-! ### `match_watch` -/

/-- `match_watch(slot, watch)` (lines 208-225). -/
def matchWatch (slot : SlotRecord) (watch : WatchRule) : Bool :=
  if !watch.active then false
  else if watch.locationId ≠ slot.locationId then false
  else if truthyS watch.courtQuery ∧
      !hasSubstr (strLower (watch.courtQuery.getD "")).data
        (strLower (slot.courtName.getD "")).data then false
  else if (watch.targetDate.isSome ∧
      watch.targetDate ≠ some slot.slotTimeLocal.dateOf) then false
  else
    let slotTime := slot.slotTimeLocal.timeOf
    if (match watch.timeFrom with
        | some tf => slotTime.ltB tf
        | none => false) then false
    else if (match watch.timeTo with
        | some tt => tt.ltB slotTime
        | none => false) then false
    else true

/-! ### `create_alerts` -/

/-- The trigger bookkeeping of lines 258-259. -/
def bumpWatch (now : DateTime) (w : WatchRule) : WatchRule :=
  { w with
    lastTriggeredAt := some now,
    triggerCount := some ((w.triggerCount.getD 0) + 1) }

/-- The `Alert` row built on lines 249-256. -/
def mkAlert (w : WatchRule) (s : SlotRecord) : Alert :=
  ⟨w.id, s.locationId, s.courtId, s.courtName, s.slotTimeLocal, s.slotTimeUtc⟩

/-- The duplicate check of lines 237-245.  The session runs with
`autoflush=False` (`app/db.py`), so the query sees only the committed alert
rows, not the ones staged earlier in the same cycle. -/
def hasCommittedAlert (committed : List Alert) (wid : Nat) (s : SlotRecord) :
    Bool :=
  committed.any (fun a =>
    decide (a.watchId = wid ∧ a.courtId = s.courtId ∧
      a.slotTimeLocal = s.slotTimeLocal))

/-- The notification send, which either returns or raises; the caller only
observes which of the two happened, so the model keeps just that bit, driven
by the `sendFails` oracle. -/
def trySend (raises : Bool) : Except Unit Bool :=
  if raises then .error () else .ok true

/-- The inner watch loop of `create_alerts` for one slot: the list of watch
objects (mutated in place by the trigger bookkeeping) and the alerts staged
for this slot.  The `try/except` around the send makes both outcomes continue
identically: the alert row is already staged and the bookkeeping applied, and
the alert is appended to the result either way. -/
def procWatches (committed : List Alert)
    (sendFails : WatchRule → SlotRecord → Bool) (now : DateTime)
    (s : SlotRecord) : List WatchRule → List WatchRule × List Alert
  | [] => ([], [])
  | w :: rest =>
    if matchWatch s w then
      if hasCommittedAlert committed w.id s then
        let t := procWatches committed sendFails now s rest
        (w :: t.1, t.2)
      else
        let w' := bumpWatch now w
        let a := mkAlert w s
        let t := procWatches committed sendFails now s rest
        match trySend (sendFails w' s) with
        | .ok _ => (w' :: t.1, a :: t.2)
        | .error _ => (w' :: t.1, a :: t.2)
    else
      let t := procWatches committed sendFails now s rest
      (w :: t.1, t.2)

/-- Writes the mutated watch objects back over the loaded table. -/
def mergeWatches (all upd : List WatchRule) : List WatchRule :=
  all.map (fun w =>
    match upd.find? (fun u => u.id = w.id) with
    | some u => u
    | none => w)

/-- `create_alerts` over one batch of new slot records, returning the
database state after the cycle commits together with the returned alert
list. -/
def createAlerts (sendFails : WatchRule → SlotRecord → Bool) (now : DateTime)
    (db : DB) (slots : List SlotRecord) : DB × List Alert :=
  let active := db.watches.filter (fun w => w.active)
  let final :=
    slots.foldl
      (fun (acc : List WatchRule × List Alert) s =>
        let t := procWatches db.alerts sendFails now s acc.1
        (t.1, acc.2 ++ t.2))
      (active, [])
  ({ db with
      watches := mergeWatches db.watches final.1,
      alerts := db.alerts ++ final.2 },
    final.2)

/-- A sequence of alert cycles (one `create_alerts` call per sync cycle, with
the session committed between cycles). -/
def runAlertCycles (sendFails : WatchRule → SlotRecord → Bool) (now : DateTime)
    (db : DB) (batches : List (List SlotRecord)) : DB :=
  batches.foldl (fun d b => (createAlerts sendFails now d b).1) db

/-- The alert identity triple `(watch_id, court_id, slot_time_local)` of the
`uq_watch_slot` constraint. -/
def Alert.triple (a : Alert) : Nat × String × DateTime :=
  (a.watchId, a.courtId, a.slotTimeLocal)

/-! ### Derived key walk

The identity keys derivable from a snapshot, computed by a direct walk over
the payload with the same guards the sync loop applies (these definitions are
spec-side: theorems compare the engine against them). -/

/-- Keys contributed by one court's raw slot list: one key per occurrence
whose timestamp parses. -/
def slotOccKeys (locId courtId : String) (raws : List String) : List SlotKey :=
  raws.filterMap (fun raw => (parseDT raw).map (fun d => (locId, courtId, d)))

/-- Keys contributed by one court block. -/
def courtOccKeys (settings : Settings) (locId : String)
    (court : CourtPayload) : List SlotKey :=
  match court.id with
  | none => []
  | some cid =>
    if cid = "" then []
    else if sportExcluded settings court then []
    else slotOccKeys locId cid (availList court)

/-- Keys contributed by one payload entry. -/
def entryOccKeys (settings : Settings) (entry : Entry) : List SlotKey :=
  match entry.location with
  | none => []
  | some lp =>
    match lp.courts with
    | some (some courts) => courts.flatMap (courtOccKeys settings lp.id)
    | _ => []

/-- The incoming identity-key sequence of a snapshot, with multiplicity, in
processing order. -/
def incomingKeyList (settings : Settings) (payload : List Entry) :
    List SlotKey :=
  payload.flatMap (entryOccKeys settings)

/-! ### Spec-side watch predicate (for C4) -/

/-- The watch predicate as the specification words it: the watch is active,
locations agree, a set `court_query` is a case-insensitive substring of the
court name, a set `target_date` equals the slot's local date, and the local
time-of-day is neither earlier than a set `time_from` nor later than a set
`time_to`; absent fields impose no constraint. -/
def specMatch (slot : SlotRecord) (watch : WatchRule) : Prop :=
  watch.active = true ∧
  watch.locationId = slot.locationId ∧
  (match watch.courtQuery with
   | none => True
   | some q =>
     hasSubstr (strLower q).data (strLower (slot.courtName.getD "")).data = true) ∧
  (match watch.targetDate with
   | none => True
   | some d => slot.slotTimeLocal.dateOf = d) ∧
  (match watch.timeFrom with
   | none => True
   | some tf => slot.slotTimeLocal.timeOf.ltB tf = false) ∧
  (match watch.timeTo with
   | none => True
   | some tt => tt.ltB slot.slotTimeLocal.timeOf = false)

/-! ### Spec-side duration policies (for C6) -/

/-- First defined value of a step list. -/
def firstSome (steps : List (Option Int)) : Option Int :=
  (steps.filterMap id).head?

/-- Step 1 of the stated policy: the maximum of a non-empty allowed-duration
list. -/
def specStep1 (court : CourtPayload) : Option Int :=
  match court.allowedDurationMinutes with
  | [] => none
  | l => some (listMax l)

/-- Step 2 of the stated policy: the court's `HH:MM:SS` max-reservation-time
string converted to minutes, seconds rounded up from 30. -/
def specStep2 (court : CourtPayload) : Option Int :=
  match court.maxReservationTime with
  | some (.str s) => if s ≠ "" ∧ s.contains ':' then parseHMS s else none
  | _ => none

/-- Step 3 of the stated policy: the location-level value with the same
string-or-numeric handling (a falsy value counts as absent; a plain number is
used as minutes). -/
def specStep3 (lp : LocationPayload) : Option Int :=
  match lp.maxReservationTime with
  | none => none
  | some (.num n) => if n = 0 then none else some n
  | some (.str s) =>
    if s = "" then none
    else if s.contains ':' then parseHMS s
    else none

/-- The duration policy exactly as the specification states it: first match of
the numbered steps wins, with the constant 60 as the final fallback. -/
def specDurationAsWritten (court : CourtPayload) (lp : LocationPayload) : Int :=
  (firstSome [specStep1 court, specStep2 court, specStep3 lp]).getD
    DEFAULT_DURATION_MINUTES

/-- The amended policy: as stated, except that a court-level value of zero
(the maximum of a non-empty allowed list, or otherwise the minutes derived
from the court's max-reservation-time string) is treated as no match and
falls through to the location-level step (a zero computed from a
location-level `HH:MM:SS` string at step 3 is kept). -/
def specDurationAmended (court : CourtPayload) (lp : LocationPayload) : Int :=
  let nz : Option Int → Option Int :=
    fun v => v.bind (fun x => if x = 0 then none else some x)
  (firstSome [nz (firstSome [specStep1 court, specStep2 court]), specStep3 lp]).getD
    DEFAULT_DURATION_MINUTES

/-! ### Basic lemmas -/

lemma hasSubstr_nil_left (hay : List Char) : hasSubstr [] hay = true := by
  cases hay <;> simp [hasSubstr, List.isPrefixOf]

lemma hasSubstr_strLower_empty (hay : List Char) :
    hasSubstr (strLower "").data hay = true := by
  have h : (strLower "").data = [] := rfl
  rw [h]; exact hasSubstr_nil_left hay

lemma strLower_ne_empty_data {q : String} (hq : q ≠ "") :
    (strLower q).data ≠ [] := by
  intro h
  apply hq
  have hd : q.data = [] := by
    have h2 : q.data.map Char.toLower = [] := h
    simpa using h2
  cases q with
  | mk data => cases hd; rfl

lemma hasSubstr_ne_empty_nil {q : String} (hq : q ≠ "") :
    hasSubstr (strLower q).data [] = false := by
  have h := strLower_ne_empty_data hq
  unfold hasSubstr
  cases hL : (strLower q).data with
  | nil => exact absurd hL h
  | cons a l => rfl

/-- `matchWatch` returns true exactly when every guard of the cascade is
off. -/
lemma matchWatch_true_iff (slot : SlotRecord) (watch : WatchRule) :
    matchWatch slot watch = true ↔
      (watch.active = true ∧ watch.locationId = slot.locationId ∧
       ¬ (truthyS watch.courtQuery = true ∧
          hasSubstr (strLower (watch.courtQuery.getD "")).data
            (strLower (slot.courtName.getD "")).data = false) ∧
       ¬ (watch.targetDate.isSome ∧
          watch.targetDate ≠ some slot.slotTimeLocal.dateOf) ∧
       (match watch.timeFrom with
        | some tf => slot.slotTimeLocal.timeOf.ltB tf
        | none => false) = false ∧
       (match watch.timeTo with
        | some tt => tt.ltB slot.slotTimeLocal.timeOf
        | none => false) = false) := by
  unfold matchWatch
  split_ifs with h1 h2 h3 h4 <;> simp_all

lemma court_cond_iff (q cn : Option String) :
    (¬ (truthyS q = true ∧
        hasSubstr (strLower (q.getD "")).data (strLower (cn.getD "")).data = false)) ↔
    (match q with
     | none => True
     | some v =>
       hasSubstr (strLower v).data (strLower (cn.getD "")).data = true) := by
  cases q with
  | none => simp [truthyS]
  | some v =>
    by_cases hv : v = "" <;> simp [truthyS, hv, hasSubstr_strLower_empty]

lemma date_cond_iff (od : Option Date) (x : Date) :
    (¬ (od.isSome ∧ od ≠ some x)) ↔
    (match od with
     | none => True
     | some d => x = d) := by
  cases od <;> simp [eq_comm]

lemma time_cond_iff (ot : Option TimeOfDay) (f : TimeOfDay → Bool) :
    ((match ot with
      | some t => f t
      | none => false) = false) ↔
    (match ot with
     | none => True
     | some t => f t = false) := by
  cases ot <;> simp

/-- C4.  Watch predicate correctness: `match_watch` returns true exactly when
the watch is active, the locations agree, a set `court_query` is a
case-insensitive substring of the slot's court name, a set `target_date`
equals the slot's local date, and the slot's local time-of-day is neither
earlier than a set `time_from` nor later than a set `time_to`; absent
optional fields impose no constraint, and an empty or missing court name
never matches a non-empty query. -/
theorem match_watch_correct (slot : SlotRecord) (watch : WatchRule) :
    (matchWatch slot watch = true ↔ specMatch slot watch) ∧
    (∀ q : String, watch.courtQuery = some q → q ≠ "" →
      (slot.courtName = none ∨ slot.courtName = some "") →
      matchWatch slot watch = false) := by
  constructor
  · rw [matchWatch_true_iff]
    unfold specMatch
    rw [court_cond_iff, date_cond_iff]
    constructor
    · rintro ⟨a, b, c, d, e, f⟩
      exact ⟨a, b, c, d, (time_cond_iff _ _).mp e, (time_cond_iff _ _).mp f⟩
    · rintro ⟨a, b, c, d, e, f⟩
      exact ⟨a, b, c, d, (time_cond_iff _ _).mpr e, (time_cond_iff _ _).mpr f⟩
  · intro q hq hne hcn
    by_contra hmw
    rw [Bool.not_eq_false, matchWatch_true_iff] at hmw
    apply hmw.2.2.1
    refine ⟨by simp [hq, truthyS, hne], ?_⟩
    have hcn' : (strLower (slot.courtName.getD "")).data = [] := by
      rcases hcn with h | h <;> simp [h] <;> rfl
    rw [hq, hcn']
    simpa using hasSubstr_ne_empty_nil hne

lemma locFallback_spec (lp : LocationPayload) (d : Int)
    (h : locFallback lp = .ok d) :
    d = (specStep3 lp).getD DEFAULT_DURATION_MINUTES := by
  unfold locFallback at h
  unfold specStep3
  cases hL : lp.maxReservationTime with
  | none => simp_all
  | some mt =>
    cases mt with
    | num n => by_cases hn : n = 0 <;> simp_all
    | str s =>
      by_cases hs : s = ""
      · simp_all
      · by_cases hc : s.contains ':'
        · cases hp : parseHMS s <;> simp_all
        · simp_all

lemma courtLevel_spec (court : CourtPayload) (o : Option Int)
    (h : courtLevelDuration court = .ok o) :
    firstSome [specStep1 court, specStep2 court] = o := by
  unfold courtLevelDuration at h
  unfold firstSome specStep1 specStep2
  cases hA : court.allowedDurationMinutes with
  | cons a rest =>
    rw [hA] at h
    simp at h
    subst h
    simp [List.findSome?]
  | nil =>
    rw [hA] at h
    simp at h
    cases hM : court.maxReservationTime with
    | none => rw [hM] at h; simp at h; subst h; simp [List.findSome?]
    | some mt =>
      rw [hM] at h
      cases mt with
      | num n => simp at h; subst h; simp [List.findSome?]
      | str s =>
        dsimp only at h ⊢
        by_cases hg : s ≠ "" ∧ s.contains ':'
        · rw [if_pos hg] at h
          rw [if_pos hg]
          cases hp : parseHMS s with
          | none => rw [hp] at h; cases h
          | some v =>
            rw [hp] at h
            simp at h
            subst h
            simp
        · rw [if_neg hg] at h
          rw [if_neg hg]
          simp at h
          subst h
          simp

lemma specAmended_court_none (court : CourtPayload) (lp : LocationPayload)
    (hc : (firstSome [specStep1 court, specStep2 court]).bind
        (fun x => if x = 0 then none else some x) = none) :
    specDurationAmended court lp =
      (specStep3 lp).getD DEFAULT_DURATION_MINUTES := by
  unfold specDurationAmended
  simp only [hc]
  cases hS : specStep3 lp <;> simp [firstSome, hS, List.findSome?]

lemma specAmended_court_val (court : CourtPayload) (lp : LocationPayload)
    (v : Int) (hc : firstSome [specStep1 court, specStep2 court] = some v)
    (hv : v ≠ 0) : specDurationAmended court lp = v := by
  unfold specDurationAmended
  rw [hc]
  simp [hv, firstSome, List.findSome?]

lemma resolveDuration_eq_amended (court : CourtPayload) (lp : LocationPayload) (d : Int)
    (h : resolveDuration court lp = .ok d) :
    d = specDurationAmended court lp := by
  unfold resolveDuration at h
  cases hc : courtLevelDuration court with
  | error e => rw [hc] at h; cases h
  | ok o =>
    rw [hc] at h
    have hfs := courtLevel_spec court o hc
    cases o with
    | none =>
      rw [locFallback_spec lp d h,
        specAmended_court_none court lp (by rw [hfs]; rfl)]
    | some v =>
      dsimp only at h
      by_cases hv : v = 0
      · rw [hv] at h
        simp only [if_pos rfl] at h
        rw [locFallback_spec lp d h,
          specAmended_court_none court lp (by rw [hfs, hv]; rfl)]
      · rw [if_neg hv] at h
        simp only [Except.ok.injEq] at h
        rw [← h, specAmended_court_val court lp v hfs hv]

/-- C6.  Duration resolution, amended: the stated first-match-wins policy
holds except that a court-level value of zero — the maximum of a non-empty
allowed-duration list, or the minutes derived from the court's
max-reservation-time string — is treated as no match and falls through to the
location-level step and the 60-minute fallback. -/
theorem duration_policy_amended (court : CourtPayload) (lp : LocationPayload)
    (d : Int) (h : resolveDuration court lp = .ok d) :
    d = specDurationAmended court lp :=
  resolveDuration_eq_amended court lp d h

/-- A court block whose allowed-duration list is `[0]`. -/
def zeroDurCourt : CourtPayload :=
  ⟨some "court-1", some "Court 1", none, [], [0], none, some (some [])⟩

/-- A location payload with no max-reservation-time. -/
def plainLoc : LocationPayload :=
  ⟨"loc-1", some (some "Loc"), none, none, none, none, none⟩

/-- C6, counterexample to the claim as stated: for a court whose
allowed-duration list is `[0]`, the stated policy resolves step 1 to
`max [0] = 0`, but the code falls through (`if not duration_minutes`) and
returns the 60-minute fallback. -/
theorem duration_policy_as_written_cex :
    resolveDuration zeroDurCourt plainLoc = .ok 60 ∧
    specDurationAsWritten zeroDurCourt plainLoc = 0 := ⟨rfl, rfl⟩

/-- C6, witness: the amended theorem applied to a court allowing
`[90, 60]` minutes. -/
theorem duration_policy_amended_witness :
    resolveDuration { zeroDurCourt with allowedDurationMinutes := [90, 60] }
        plainLoc = .ok 90 ∧
    (90 : Int) = specDurationAmended
        { zeroDurCourt with allowedDurationMinutes := [90, 60] } plainLoc :=
  ⟨rfl, duration_policy_amended _ plainLoc 90 rfl⟩

/-- The evening watch of the specification's worked example. -/
def eveningWatch : WatchRule :=
  ⟨1, "loc-123", some "Court 2", some ⟨2025, 10, 27⟩, some ⟨17, 0, 0⟩,
    some ⟨19, 0, 0⟩, none, true, some 0, none⟩

/-- The matching slot of the worked example (court "Court 2" at 18:00). -/
def eveningSlot : SlotRecord :=
  ⟨"loc-123", some "Loc", none, none, "America/Los_Angeles", "court-2",
    some "Court 2", none, ⟨2025, 10, 27, 18, 0, 0⟩, ⟨2025, 10, 28, 1, 0, 0⟩,
    some 90⟩

/-- C4, witness: the equivalence applied to the worked example, and the
no-court-name conjunct applied to the same slot with its name removed. -/
theorem match_watch_correct_witness :
    specMatch eveningSlot eveningWatch ∧
    matchWatch { eveningSlot with courtName := none } eveningWatch = false :=
  ⟨(match_watch_correct eveningSlot eveningWatch).1.mp (by decide),
   (match_watch_correct { eveningSlot with courtName := none }
      eveningWatch).2 "Court 2" rfl (by decide) (Or.inl rfl)⟩

/-! ### Reconciliation-loop invariants -/

def hasKeyB (rows : List AvailabilitySlot) (k : SlotKey) : Bool :=
  rows.any (fun r => decide (r.key = k))

/-- What one processing step contributes, relative to the incoming keys `occ`
it covers: loaded-row keys unchanged, location ids only grow, the staged rows
and new records gain exactly the occurrences whose key is not loaded, and the
incoming-key set gains exactly `occ`. -/
def StepSpec (st0 st1 : SyncSt) (occ : List SlotKey) : Prop :=
  st1.existingRows.map AvailabilitySlot.key =
    st0.existingRows.map AvailabilitySlot.key ∧
  (∀ l ∈ st0.locations, ∃ l2 ∈ st1.locations, l2.id = l.id) ∧
  st1.addedRows.map AvailabilitySlot.key =
    st0.addedRows.map AvailabilitySlot.key ++
      occ.filter (fun k => !hasKeyB st0.existingRows k) ∧
  st1.newRecords.map SlotRecord.key =
    st0.newRecords.map SlotRecord.key ++
      occ.filter (fun k => !hasKeyB st0.existingRows k) ∧
  (∀ k, k ∈ st1.incomingKeys ↔ k ∈ st0.incomingKeys ∨ k ∈ occ)

lemma StepSpec.refl (st : SyncSt) : StepSpec st st [] := by
  refine ⟨rfl, fun l hl => ⟨l, hl, rfl⟩, by simp, by simp, fun k => by simp⟩

lemma hasKeyB_iff (rows : List AvailabilitySlot) (k : SlotKey) :
    hasKeyB rows k = true ↔ k ∈ rows.map AvailabilitySlot.key := by
  unfold hasKeyB
  rw [List.any_eq_true]
  constructor
  · rintro ⟨r, hr, hd⟩
    rw [decide_eq_true_eq] at hd
    exact hd ▸ List.mem_map_of_mem _ hr
  · intro hk
    rw [List.mem_map] at hk
    obtain ⟨r, hr, hkey⟩ := hk
    exact ⟨r, hr, by rw [decide_eq_true_eq, hkey]⟩

lemma hasKeyB_congr {rows1 rows2 : List AvailabilitySlot} (k : SlotKey)
    (h : rows1.map AvailabilitySlot.key = rows2.map AvailabilitySlot.key) :
    hasKeyB rows1 k = hasKeyB rows2 k := by
  rw [Bool.eq_iff_iff, hasKeyB_iff, hasKeyB_iff, h]

lemma StepSpec.trans {a b c : SyncSt} {o1 o2 : List SlotKey}
    (h1 : StepSpec a b o1) (h2 : StepSpec b c o2) :
    StepSpec a c (o1 ++ o2) := by
  obtain ⟨e1, l1, a1, n1, i1⟩ := h1
  obtain ⟨e2, l2, a2, n2, i2⟩ := h2
  refine ⟨e2.trans e1, ?_, ?_, ?_, ?_⟩
  · intro l hl
    obtain ⟨l2', hl2', hid⟩ := l1 l hl
    obtain ⟨l3, hl3, hid3⟩ := l2 l2' hl2'
    exact ⟨l3, hl3, hid3.trans hid⟩
  · rw [a2, a1, List.filter_append, List.append_assoc]
    congr 2
    apply List.filter_congr
    intro k _
    rw [hasKeyB_congr k e1]
  · rw [n2, n1, List.filter_append, List.append_assoc]
    congr 2
    apply List.filter_congr
    intro k _
    rw [hasKeyB_congr k e1]
  · intro k
    rw [i2, i1, List.mem_append]
    tauto

lemma backfillSlot_key (r : AvailabilitySlot) (d : Int)
    (sp cn : Option String) : (backfillSlot r d sp cn).key = r.key := by
  unfold backfillSlot AvailabilitySlot.key
  dsimp only
  split_ifs <;> rfl

lemma updateLastByKey_map_key (rows : List AvailabilitySlot) (k : SlotKey)
    (f : AvailabilitySlot → AvailabilitySlot)
    (hf : ∀ r, (f r).key = r.key) :
    (updateLastByKey rows k f).map AvailabilitySlot.key =
      rows.map AvailabilitySlot.key := by
  induction rows with
  | nil => rfl
  | cons r rest ih =>
    unfold updateLastByKey
    split_ifs with h1 h2 <;> simp [ih, hf]

lemma hasKeyB_cons (r : AvailabilitySlot) (rest : List AvailabilitySlot)
    (k : SlotKey) :
    hasKeyB (r :: rest) k = (decide (r.key = k) || hasKeyB rest k) := by
  simp [hasKeyB, List.any_cons]

lemma findLastByKey_none_iff (rows : List AvailabilitySlot) (k : SlotKey) :
    findLastByKey rows k = none ↔ hasKeyB rows k = false := by
  induction rows with
  | nil => simp [findLastByKey, hasKeyB]
  | cons r rest ih =>
    rw [hasKeyB_cons]
    unfold findLastByKey
    cases hf : findLastByKey rest k with
    | some x =>
      have hne : hasKeyB rest k ≠ false := fun hc => by
        rw [ih.mpr hc] at hf; cases hf
      constructor
      · intro h; cases h
      · intro h
        rw [Bool.or_eq_false_iff] at h
        exact absurd h.2 hne
    | none =>
      have hrest : hasKeyB rest k = false := ih.mp hf
      rw [hrest]
      by_cases hk : r.key = k <;> simp [hk]

lemma insertKey_mem (ks : List SlotKey) (k k2 : SlotKey) :
    k2 ∈ insertKey ks k ↔ k2 ∈ ks ∨ k2 = k := by
  unfold insertKey
  split_ifs with h
  · constructor
    · exact fun hm => Or.inl hm
    · rintro (hm | rfl)
      · exact hm
      · exact h
  · simp

/-- The keys contributed by a single raw slot string. -/
def rawOcc (locId courtId : String) (raw : String) : List SlotKey :=
  match parseDT raw with
  | none => []
  | some d => [(locId, courtId, d)]

lemma slotOccKeys_eq_flat (locId courtId : String) (raws : List String) :
    slotOccKeys locId courtId raws = raws.flatMap (rawOcc locId courtId) := by
  induction raws with
  | nil => rfl
  | cons raw rest ih =>
    unfold slotOccKeys at ih ⊢
    rw [List.filterMap_cons, List.flatMap_cons, ← ih]
    cases hp : parseDT raw <;> simp [rawOcc, hp]

lemma processSlot_spec (ec : EntryCtx) (cc : CourtCtx) (st : SyncSt)
    (raw : String) :
    StepSpec st (processSlot ec cc st raw) (rawOcc ec.loc.id cc.courtId raw) := by
  unfold processSlot rawOcc
  cases hp : parseDT raw with
  | none => exact StepSpec.refl st
  | some d =>
    dsimp only
    cases hf : findLastByKey st.existingRows (ec.loc.id, cc.courtId, d) with
    | some x =>
      have hk : hasKeyB st.existingRows (ec.loc.id, cc.courtId, d) = true := by
        rcases hb : hasKeyB st.existingRows (ec.loc.id, cc.courtId, d) with _ | _
        · rw [(findLastByKey_none_iff _ _).mpr hb] at hf; cases hf
        · rfl
      refine ⟨?_, fun l hl => ⟨l, hl, rfl⟩, ?_, ?_, ?_⟩
      · exact updateLastByKey_map_key _ _ _ (fun r => backfillSlot_key r _ _ _)
      · simp [hk]
      · simp [hk]
      · intro k2
        simp [insertKey_mem]
    | none =>
      have hk : hasKeyB st.existingRows (ec.loc.id, cc.courtId, d) = false :=
        (findLastByKey_none_iff _ _).mp hf
      refine ⟨rfl, fun l hl => ⟨l, hl, rfl⟩, ?_, ?_, ?_⟩
      · simp [hk, AvailabilitySlot.key]
      · simp [hk, SlotRecord.key]
      · intro k2
        simp [insertKey_mem]

lemma foldSlots_spec (ec : EntryCtx) (cc : CourtCtx) (raws : List String) :
    ∀ st : SyncSt, StepSpec st (raws.foldl (processSlot ec cc) st)
      (slotOccKeys ec.loc.id cc.courtId raws) := by
  induction raws with
  | nil => intro st; exact StepSpec.refl st
  | cons raw rest ih =>
    intro st
    rw [List.foldl_cons]
    have h := StepSpec.trans (processSlot_spec ec cc st raw)
      (ih (processSlot ec cc st raw))
    rw [slotOccKeys_eq_flat, List.flatMap_cons, ← slotOccKeys_eq_flat]
    exact h

lemma processCourt_spec (ec : EntryCtx) (st st' : SyncSt) (c : CourtPayload)
    (h : processCourt ec st c = .ok st') :
    StepSpec st st' (courtOccKeys ec.settings ec.loc.id c) := by
  unfold processCourt at h
  unfold courtOccKeys
  cases hid : c.id with
  | none => rw [hid] at h; cases h; exact StepSpec.refl _
  | some cid =>
    rw [hid] at h
    dsimp only at h ⊢
    by_cases hempty : cid = ""
    · rw [if_pos hempty] at h
      rw [if_pos hempty]
      cases h
      exact StepSpec.refl _
    · rw [if_neg hempty] at h
      rw [if_neg hempty]
      by_cases hsp : sportExcluded ec.settings c = true
      · rw [if_pos hsp] at h
        rw [if_pos hsp]
        cases h
        exact StepSpec.refl _
      · rw [if_neg hsp] at h
        rw [if_neg hsp]
        cases hdur : resolveDuration c ec.lp with
        | error e => rw [hdur] at h; cases h
        | ok dur =>
          rw [hdur] at h
          dsimp only at h
          cases hav : c.availableSlots with
          | none =>
            rw [hav] at h
            cases h
            have hav2 : availList c = [] := by unfold availList; rw [hav]
            rw [hav2]
            exact StepSpec.refl _
          | some inner =>
            cases inner with
            | none => rw [hav] at h; cases h
            | some raws =>
              rw [hav] at h
              dsimp only at h
              cases h
              have : availList c = raws := by unfold availList; rw [hav]
              rw [this]
              exact foldSlots_spec ec ⟨cid, _, _, dur⟩ raws st

lemma foldCourts_error (ec : EntryCtx) (courts : List CourtPayload)
    (e : Unit) : courts.foldl (stepCourt ec) (.error e) = .error e := by
  induction courts with
  | nil => rfl
  | cons c rest ih => rw [List.foldl_cons]; exact ih

lemma foldCourts_spec (ec : EntryCtx) (courts : List CourtPayload) :
    ∀ st st' : SyncSt, courts.foldl (stepCourt ec) (.ok st) = .ok st' →
      StepSpec st st' (courts.flatMap (courtOccKeys ec.settings ec.loc.id)) := by
  induction courts with
  | nil => intro st st' h; cases h; exact StepSpec.refl _
  | cons c rest ih =>
    intro st st' h
    rw [List.foldl_cons] at h
    rw [List.flatMap_cons]
    cases hc : processCourt ec st c with
    | error e =>
      rw [show stepCourt ec (.ok st) c = processCourt ec st c from rfl, hc,
        foldCourts_error] at h
      cases h
    | ok st1 =>
      rw [show stepCourt ec (.ok st) c = processCourt ec st c from rfl, hc] at h
      exact StepSpec.trans (processCourt_spec ec st st1 c hc) (ih st1 st' h)

lemma upsertLocation_mono (locs : List Location) (p : LocationPayload)
    (locs' : List Location) (loc : Location)
    (h : upsertLocation locs p = .ok (locs', loc)) :
    (∀ l ∈ locs, ∃ l2 ∈ locs', l2.id = l.id) ∧ loc.id = p.id ∧
      ∃ l2 ∈ locs', l2.id = p.id := by
  unfold upsertLocation at h
  cases hf : locs.find? (fun l => l.id = p.id) with
  | none =>
    rw [hf] at h
    cases hn : p.name with
    | none => rw [hn] at h; cases h
    | some nm =>
      rw [hn] at h
      dsimp only at h
      cases h
      refine ⟨fun l hl => ⟨l, List.mem_append_left _ hl, rfl⟩, rfl, ?_⟩
      exact ⟨_, List.mem_append_right _ (List.mem_singleton_self _), rfl⟩
  | some l0 =>
    rw [hf] at h
    dsimp only at h
    cases h
    have hid : l0.id = p.id := by
      have := List.find?_some hf
      simpa using this
    have hmem : l0 ∈ locs := List.mem_of_find?_eq_some hf
    constructor
    · intro l hl
      unfold replaceById
      by_cases he : l.id = l0.id
      · refine ⟨_, List.mem_map_of_mem (fun l2 => if l2.id = l0.id then _ else l2) hl, ?_⟩
        simp [he]
      · refine ⟨_, List.mem_map_of_mem (fun l2 => if l2.id = l0.id then _ else l2) hl, ?_⟩
        simp [he]
    · refine ⟨hid, ?_⟩
      unfold replaceById
      refine ⟨_, List.mem_map_of_mem _ hmem, ?_⟩
      simp [hid]

lemma processEntry_spec (settings : Settings)
    (utcOf : String → DateTime → DateTime) (st st' : SyncSt) (e : Entry)
    (h : processEntry settings utcOf st e = .ok st') :
    StepSpec st st' (entryOccKeys settings e) := by
  unfold processEntry at h
  unfold entryOccKeys
  cases hloc : e.location with
  | none => rw [hloc] at h; cases h; exact StepSpec.refl _
  | some lp =>
    rw [hloc] at h
    dsimp only at h ⊢
    cases hup : upsertLocation st.locations lp with
    | error err => rw [hup] at h; cases h
    | ok pr =>
      obtain ⟨locs', loc⟩ := pr
      rw [hup] at h
      dsimp only at h
      obtain ⟨hmono, hlocid, -⟩ := upsertLocation_mono _ _ _ _ hup
      have hstep1 : StepSpec st { st with locations := locs' } [] := by
        refine ⟨rfl, ?_, by simp, by simp, fun k => by simp⟩
        intro l hl
        exact hmono l hl
      cases himg : lp.images with
      | some inner =>
        cases inner with
        | none => rw [himg] at h; cases h
        | some img =>
          rw [himg] at h
          dsimp only at h
          cases hco : lp.courts with
          | none =>
            rw [hco] at h
            cases h
            simp only [hco]
            exact hstep1
          | some cinner =>
            cases cinner with
            | none => rw [hco] at h; cases h
            | some courts =>
              rw [hco] at h
              dsimp only at h
              simp only [hco]
              have hfold := foldCourts_spec _ courts _ _ h
              have hcomb := StepSpec.trans hstep1 hfold
              rw [List.nil_append] at hcomb
              rw [show loc.id = lp.id from hlocid] at hcomb
              exact hcomb
      | none =>
        rw [himg] at h
        dsimp only at h
        cases hco : lp.courts with
        | none =>
          rw [hco] at h
          cases h
          simp only [hco]
          exact hstep1
        | some cinner =>
          cases cinner with
          | none => rw [hco] at h; cases h
          | some courts =>
            rw [hco] at h
            dsimp only at h
            simp only [hco]
            have hfold := foldCourts_spec _ courts _ _ h
            have hcomb := StepSpec.trans hstep1 hfold
            rw [List.nil_append] at hcomb
            rw [show loc.id = lp.id from hlocid] at hcomb
            exact hcomb

lemma foldEntries_error (settings : Settings)
    (utcOf : String → DateTime → DateTime) (payload : List Entry) (e : Unit) :
    payload.foldl (stepEntry settings utcOf) (.error e) = .error e := by
  induction payload with
  | nil => rfl
  | cons p rest ih => rw [List.foldl_cons]; exact ih

lemma foldEntries_spec (settings : Settings)
    (utcOf : String → DateTime → DateTime) (payload : List Entry) :
    ∀ st st' : SyncSt,
      payload.foldl (stepEntry settings utcOf) (.ok st) = .ok st' →
      StepSpec st st' (incomingKeyList settings payload) := by
  induction payload with
  | nil => intro st st' h; cases h; exact StepSpec.refl _
  | cons e rest ih =>
    intro st st' h
    rw [List.foldl_cons,
      show stepEntry settings utcOf (.ok st) e = processEntry settings utcOf st e
        from rfl] at h
    unfold incomingKeyList
    rw [List.flatMap_cons]
    cases hp : processEntry settings utcOf st e with
    | error err => rw [hp, foldEntries_error] at h; cases h
    | ok st1 =>
      rw [hp] at h
      exact StepSpec.trans (processEntry_spec settings utcOf st st1 e hp)
        (ih st1 st' h)

/-- The initial loop state of `sync_availability`. -/
def initSt (db : DB) : SyncSt := ⟨db.locations, db.slots, [], [], []⟩

/-- Master invariant: a successful `sync_availability` loop relates its final
state to the incoming key walk. -/
lemma syncCore_spec (utcOf : String → DateTime → DateTime)
    (settings : Settings) (db : DB) (payload : List Entry) (st : SyncSt)
    (h : syncCore utcOf settings db payload = .ok st) :
    StepSpec (initSt db) st (incomingKeyList settings payload) :=
  foldEntries_spec settings utcOf payload (initSt db) st h

/-! ### Deletion-pass lemmas -/

lemma deleteStale_eq_filter (rows : List AvailabilitySlot)
    (inc : List SlotKey) (hnd : (rows.map AvailabilitySlot.key).Nodup) :
    deleteStale rows inc = rows.filter (fun r => decide (r.key ∈ inc)) := by
  induction rows with
  | nil => rfl
  | cons r rest ih =>
    rw [List.map_cons, List.nodup_cons] at hnd
    have hany : rest.any (fun x => decide (x.key = r.key)) = false := by
      rw [Bool.eq_false_iff]
      intro hc
      rw [List.any_eq_true] at hc
      obtain ⟨x, hx, hxk⟩ := hc
      rw [decide_eq_true_eq] at hxk
      exact hnd.1 (hxk ▸ List.mem_map_of_mem _ hx)
    unfold deleteStale
    by_cases hmem : r.key ∈ inc
    · rw [if_pos hmem, ih hnd.2, List.filter_cons_of_pos (by simpa using hmem)]
    · rw [if_neg hmem, hany, List.filter_cons_of_neg (by simpa using hmem)]
      simp only [Bool.false_eq_true, if_false]
      exact ih hnd.2

lemma deleteStale_all_kept (rows : List AvailabilitySlot)
    (inc : List SlotKey) (h : ∀ r ∈ rows, r.key ∈ inc) :
    deleteStale rows inc = rows := by
  induction rows with
  | nil => rfl
  | cons r rest ih =>
    unfold deleteStale
    rw [if_pos (h r (List.mem_cons_self r rest)),
      ih (fun x hx => h x (List.mem_cons_of_mem r hx))]

lemma length_filter_mem_comm (A B : List SlotKey) (hA : A.Nodup)
    (hB : B.Nodup) :
    (A.filter (fun a => decide (a ∈ B))).length =
      (B.filter (fun b => decide (b ∈ A))).length := by
  apply List.Perm.length_eq
  rw [List.perm_ext_iff_of_nodup (hA.filter _) (hB.filter _)]
  intro x
  simp only [List.mem_filter, decide_eq_true_eq]
  tauto

lemma hasKeyB_eq_decide (rows : List AvailabilitySlot) (k : SlotKey) :
    hasKeyB rows k = decide (k ∈ rows.map AvailabilitySlot.key) := by
  rw [Bool.eq_iff_iff, hasKeyB_iff, decide_eq_true_eq]

lemma map_key_filter (rows : List AvailabilitySlot) (ks : List SlotKey) :
    (rows.filter (fun r => decide (r.key ∈ ks))).map AvailabilitySlot.key =
      (rows.map AvailabilitySlot.key).filter (fun k => decide (k ∈ ks)) := by
  induction rows with
  | nil => rfl
  | cons r rest ih =>
    simp only [List.map_cons, List.filter_cons]
    cases hp : decide (r.key ∈ ks) <;> simp [hp, ih]

/-- C1 (amended).  Exact-set convergence for duplicate-free snapshots: when
the loaded rows satisfy the identity-key uniqueness invariant and the
snapshot's incoming occurrences have pairwise-distinct identity keys, the
persisted key set after `sync_availability` equals the incoming key set and
the persisted row count equals the number of distinct incoming keys. -/
theorem sync_exact_convergence (utcOf : String → DateTime → DateTime)
    (settings : Settings) (db : DB) (payload : List Entry) (db' : DB)
    (recs : List SlotRecord)
    (hdb : (db.slots.map AvailabilitySlot.key).Nodup)
    (hinc : (incomingKeyList settings payload).Nodup)
    (h : syncAvailability utcOf settings db payload = .ok (db', recs)) :
    (∀ k, k ∈ db'.slots.map AvailabilitySlot.key ↔
      k ∈ incomingKeyList settings payload) ∧
    db'.slots.length = (incomingKeyList settings payload).dedup.length := by
  unfold syncAvailability at h
  cases hc : syncCore utcOf settings db payload with
  | error e => rw [hc] at h; cases h
  | ok st =>
    rw [hc] at h
    dsimp only at h
    cases h
    obtain ⟨hE, -, hA, -, hI⟩ := syncCore_spec utcOf settings db payload st hc
    have hA' : st.addedRows.map AvailabilitySlot.key =
        (incomingKeyList settings payload).filter
          (fun k => !hasKeyB db.slots k) := by
      simpa using hA
    have hI' : ∀ k, k ∈ st.incomingKeys ↔
        k ∈ incomingKeyList settings payload := by
      intro k
      have := hI k
      simpa [initSt] using this
    have hexnd : (st.existingRows.map AvailabilitySlot.key).Nodup := by
      rw [show st.existingRows.map AvailabilitySlot.key =
        db.slots.map AvailabilitySlot.key from hE]
      exact hdb
    have hdelmap : (deleteStale st.existingRows st.incomingKeys).map
        AvailabilitySlot.key =
        (db.slots.map AvailabilitySlot.key).filter
          (fun k => decide (k ∈ st.incomingKeys)) := by
      rw [deleteStale_eq_filter _ _ hexnd, map_key_filter, hE]
      rfl
    constructor
    · intro k
      dsimp only
      rw [List.map_append, List.mem_append, hdelmap, hA']
      simp only [List.mem_filter, decide_eq_true_eq, Bool.not_eq_true',
        hasKeyB_eq_decide, decide_eq_false_iff_not]
      constructor
      · rintro (⟨-, hks⟩ | ⟨hin, -⟩)
        · exact (hI' k).mp hks
        · exact hin
      · intro hin
        by_cases hmem : k ∈ db.slots.map AvailabilitySlot.key
        · exact Or.inl ⟨hmem, (hI' k).mpr hin⟩
        · exact Or.inr ⟨hin, hmem⟩
    · dsimp only
      rw [List.length_append, ← List.length_map
        (deleteStale st.existingRows st.incomingKeys) AvailabilitySlot.key,
        ← List.length_map st.addedRows AvailabilitySlot.key, hdelmap, hA',
        List.Nodup.dedup hinc]
      have hfc : (db.slots.map AvailabilitySlot.key).filter
          (fun k => decide (k ∈ st.incomingKeys)) =
          (db.slots.map AvailabilitySlot.key).filter
            (fun k => decide (k ∈ incomingKeyList settings payload)) := by
        apply List.filter_congr
        intro k _
        rw [decide_eq_decide]
        exact hI' k
      rw [hfc, length_filter_mem_comm _ _ hdb hinc]
      have hnot : ∀ k, (!hasKeyB db.slots k) =
          !(fun k2 => decide (k2 ∈ db.slots.map AvailabilitySlot.key)) k := by
        intro k
        rw [hasKeyB_eq_decide]
      rw [List.filter_congr (fun k _ => hnot k),
        ← List.length_eq_length_filter_add]

/-! ### Concrete fixtures -/

/-- A stand-in for the `astimezone(UTC)` conversion (no property depends on
its value). -/
def utcOf0 : String → DateTime → DateTime := fun _ d => d

def settings0 : Settings := ⟨"America/Los_Angeles", none⟩

def emptyDB : DB := ⟨[], [], [], []⟩

/-- A court block listing the same slot timestamp twice. -/
def dupCourt : CourtPayload :=
  ⟨some "court-1", some "Court 1", none, [], [90], none,
    some (some ["2025-10-27 09:00:00", "2025-10-27 09:00:00"])⟩

def dupLoc : LocationPayload :=
  ⟨"loc-123", some (some "Mission Dolores"), some (some "19th & Dolores"),
    some (some "America/Los_Angeles"), none, none, some (some [dupCourt])⟩

/-- A snapshot whose canonical records repeat one identity key. -/
def dupPayload : List Entry := [⟨some dupLoc⟩]

def dupKey : SlotKey := ("loc-123", "court-1", ⟨2025, 10, 27, 9, 0, 0⟩)

/-- C1, counterexample to the claim as stated: on a snapshot that lists the
same identity key twice, the persisted row count after reconciliation is 2
while the incoming canonical set has a single distinct key. -/
theorem sync_exact_convergence_cex :
    (syncAvailability utcOf0 settings0 emptyDB dupPayload).map
        (fun pr => pr.1.slots.length) = .ok 2 ∧
    (incomingKeyList settings0 dupPayload).dedup.length = 1 := ⟨rfl, rfl⟩

/-- A duplicate-free one-slot snapshot. -/
def simplePayload : List Entry :=
  [⟨some { dupLoc with courts := some (some
    [{ dupCourt with availableSlots := some (some ["2025-10-27 09:00:00"]) }]) }⟩]

/-- C1, witness: the amended theorem applied to the duplicate-free one-slot
snapshot against an empty store. -/
theorem sync_exact_convergence_witness :
    ((emptyDB.slots.map AvailabilitySlot.key).Nodup ∧
      (incomingKeyList settings0 simplePayload).Nodup) ∧
    (∃ db2, ∃ recs,
      syncAvailability utcOf0 settings0 emptyDB simplePayload = .ok (db2, recs) ∧
      (∀ k, k ∈ db2.slots.map AvailabilitySlot.key ↔
        k ∈ incomingKeyList settings0 simplePayload) ∧
      db2.slots.length = (incomingKeyList settings0 simplePayload).dedup.length) := by
  refine ⟨⟨by decide, by decide⟩, _, _, rfl, ?_⟩
  exact sync_exact_convergence utcOf0 settings0 emptyDB simplePayload _ _
    (by decide) (by decide) rfl

/-- C10.  No intra-payload deduplication: a successful sync stages one insert
and returns one new record per incoming occurrence whose identity key is not
already persisted — occurrences are kept with multiplicity, so a payload
repeating a key yields repeated keys in the result. -/
lemma syncCore_new_keys (utcOf : String → DateTime → DateTime)
    (settings : Settings) (db : DB) (payload : List Entry) (st : SyncSt)
    (h : syncCore utcOf settings db payload = .ok st) :
    st.newRecords.map SlotRecord.key =
      (incomingKeyList settings payload).filter
        (fun k => !hasKeyB db.slots k) ∧
    st.addedRows.map AvailabilitySlot.key =
      (incomingKeyList settings payload).filter
        (fun k => !hasKeyB db.slots k) := by
  obtain ⟨-, -, hA, hN, -⟩ := syncCore_spec utcOf settings db payload st h
  exact ⟨by simpa [initSt] using hN, by simpa [initSt] using hA⟩

theorem no_intra_payload_dedup (utcOf : String → DateTime → DateTime)
    (settings : Settings) (db : DB) (payload : List Entry) (st : SyncSt)
    (h : syncCore utcOf settings db payload = .ok st) :
    st.newRecords.map SlotRecord.key =
      (incomingKeyList settings payload).filter
        (fun k => !hasKeyB db.slots k) ∧
    st.addedRows.map AvailabilitySlot.key =
      (incomingKeyList settings payload).filter
        (fun k => !hasKeyB db.slots k) :=
  syncCore_new_keys utcOf settings db payload st h

/-- C10, witness: on the duplicate snapshot the returned new-record list
carries the same identity key twice. -/
theorem no_intra_payload_dedup_witness :
    ∃ st, syncCore utcOf0 settings0 emptyDB dupPayload = .ok st ∧
      st.newRecords.map SlotRecord.key = [dupKey, dupKey] := by
  refine ⟨_, rfl, ?_⟩
  rw [(no_intra_payload_dedup utcOf0 settings0 emptyDB dupPayload _ rfl).1]
  rfl

/-- C5.  Metadata backfill without clobber: on an already-persisted row the
backfill leaves the identity fields alone, replaces the duration exactly when
the incoming value is truthy and different, replaces the sport id exactly
when the incoming value is truthy and different, fills the court name exactly
when the incoming value is truthy and the stored one is empty (so a populated
field is never overwritten with an empty value), and a successful sync never
returns a record whose identity key was already persisted as new. -/
theorem backfill_no_clobber (r : AvailabilitySlot) (dur : Int)
    (sp cn : Option String) :
    ((backfillSlot r dur sp cn).key = r.key ∧
     (backfillSlot r dur sp cn).durationMinutes =
       (if dur ≠ 0 ∧ r.durationMinutes ≠ some dur then some dur
        else r.durationMinutes) ∧
     (backfillSlot r dur sp cn).sportId =
       (if truthyS sp ∧ r.sportId ≠ sp then sp else r.sportId) ∧
     (backfillSlot r dur sp cn).courtName =
       (if truthyS cn ∧ ¬ truthyS r.courtName then cn else r.courtName)) ∧
    (∀ (utcOf : String → DateTime → DateTime) (settings : Settings) (db : DB)
       (payload : List Entry) (st : SyncSt),
       syncCore utcOf settings db payload = .ok st →
       ∀ rec ∈ st.newRecords, rec.key ∉ db.slots.map AvailabilitySlot.key) := by
  constructor
  · refine ⟨backfillSlot_key r dur sp cn, ?_, ?_, ?_⟩ <;>
      (unfold backfillSlot; dsimp only; split_ifs <;> simp_all)
  · intro utcOf settings db payload st h rec hrec
    obtain ⟨hmapN, -⟩ := syncCore_new_keys utcOf settings db payload st h
    intro hmem
    have hkmem : rec.key ∈ st.newRecords.map SlotRecord.key :=
      List.mem_map_of_mem _ hrec
    rw [hmapN] at hkmem
    rw [List.mem_filter] at hkmem
    rw [Bool.not_eq_true', hasKeyB_eq_decide, decide_eq_false_iff_not] at hkmem
    exact hkmem.2 hmem

/-- A persisted slot row without a court name. -/
def slotNoName : AvailabilitySlot :=
  ⟨"loc-123", "court-1", none, none, some 60, ⟨2025, 10, 27, 9, 0, 0⟩,
    ⟨2025, 10, 27, 16, 0, 0⟩⟩

/-- The same row with a populated court name. -/
def slotNamed : AvailabilitySlot := { slotNoName with courtName := some "Court 1" }

/-- C5, witness: the backfill fills an absent court name from a non-empty
incoming one, an empty incoming name leaves a populated one alone, and the
never-new conjunct applied to a successful sync against an empty store. -/
theorem backfill_no_clobber_witness :
    (backfillSlot slotNoName 60 none (some "Court 1")).courtName =
      some "Court 1" ∧
    (backfillSlot slotNamed 60 none (some "")).courtName = some "Court 1" ∧
    (∃ st, syncCore utcOf0 settings0 emptyDB simplePayload = .ok st ∧
      ∀ rec ∈ st.newRecords,
        rec.key ∉ emptyDB.slots.map AvailabilitySlot.key) := by
  refine ⟨?_, ?_, _, rfl, ?_⟩
  · rw [(backfill_no_clobber slotNoName 60 none (some "Court 1")).1.2.2.2]
    decide
  · rw [(backfill_no_clobber slotNamed 60 none (some "")).1.2.2.2]
    decide
  · exact (backfill_no_clobber slotNoName 60 none none).2 utcOf0 settings0
      emptyDB simplePayload _ rfl

/-! ### A second run of the same payload cannot fail -/

lemma foldEntries_entry_ok (settings : Settings)
    (utcOf : String → DateTime → DateTime) :
    ∀ (payload : List Entry) (st st' : SyncSt),
      payload.foldl (stepEntry settings utcOf) (.ok st) = .ok st' →
      ∀ e ∈ payload, ∃ s s', processEntry settings utcOf s e = .ok s' := by
  intro payload
  induction payload with
  | nil => intro st st' h e he; cases he
  | cons e0 rest ih =>
    intro st st' h e he
    rw [List.foldl_cons,
      show stepEntry settings utcOf (.ok st) e0 =
        processEntry settings utcOf st e0 from rfl] at h
    cases hp : processEntry settings utcOf st e0 with
    | error err => rw [hp, foldEntries_error] at h; cases h
    | ok s1 =>
      rw [hp] at h
      rw [List.mem_cons] at he
      rcases he with rfl | he
      · exact ⟨st, s1, hp⟩
      · exact ih s1 st' h e he

lemma processEntry_locations_present (settings : Settings)
    (utcOf : String → DateTime → DateTime) (st st' : SyncSt) (e : Entry)
    (h : processEntry settings utcOf st e = .ok st') :
    ∀ lp, e.location = some lp → ∃ l ∈ st'.locations, l.id = lp.id := by
  intro lp hloc
  unfold processEntry at h
  rw [hloc] at h
  dsimp only at h
  cases hup : upsertLocation st.locations lp with
  | error err => rw [hup] at h; cases h
  | ok pr =>
    obtain ⟨locs', loc⟩ := pr
    rw [hup] at h
    dsimp only at h
    obtain ⟨-, -, hpres⟩ := upsertLocation_mono _ _ _ _ hup
    have hmid : ∃ l ∈ ({ st with locations := locs' } : SyncSt).locations,
        l.id = lp.id := hpres
    cases himg : lp.images with
    | some inner =>
      cases inner with
      | none => rw [himg] at h; cases h
      | some img =>
        rw [himg] at h
        dsimp only at h
        cases hco : lp.courts with
        | none => rw [hco] at h; cases h; exact hmid
        | some cinner =>
          cases cinner with
          | none => rw [hco] at h; cases h
          | some courts =>
            rw [hco] at h
            dsimp only at h
            obtain ⟨l0, hl0, hid0⟩ := hmid
            obtain ⟨-, hmono, -⟩ := foldCourts_spec _ courts _ _ h
            obtain ⟨l2, hl2, hid2⟩ := hmono l0 hl0
            exact ⟨l2, hl2, hid2.trans hid0⟩
    | none =>
      rw [himg] at h
      dsimp only at h
      cases hco : lp.courts with
      | none => rw [hco] at h; cases h; exact hmid
      | some cinner =>
        cases cinner with
        | none => rw [hco] at h; cases h
        | some courts =>
          rw [hco] at h
          dsimp only at h
          obtain ⟨l0, hl0, hid0⟩ := hmid
          obtain ⟨-, hmono, -⟩ := foldCourts_spec _ courts _ _ h
          obtain ⟨l2, hl2, hid2⟩ := hmono l0 hl0
          exact ⟨l2, hl2, hid2.trans hid0⟩

lemma syncCore_locations_present (settings : Settings)
    (utcOf : String → DateTime → DateTime) :
    ∀ (payload : List Entry) (st st' : SyncSt),
      payload.foldl (stepEntry settings utcOf) (.ok st) = .ok st' →
      ∀ e ∈ payload, ∀ lp, e.location = some lp →
        ∃ l ∈ st'.locations, l.id = lp.id := by
  intro payload
  induction payload with
  | nil => intro st st' h e he; cases he
  | cons e0 rest ih =>
    intro st st' h e he lp hloc
    rw [List.foldl_cons,
      show stepEntry settings utcOf (.ok st) e0 =
        processEntry settings utcOf st e0 from rfl] at h
    cases hp : processEntry settings utcOf st e0 with
    | error err => rw [hp, foldEntries_error] at h; cases h
    | ok s1 =>
      rw [hp] at h
      rw [List.mem_cons] at he
      rcases he with rfl | he
      · obtain ⟨l0, hl0, hid0⟩ := processEntry_locations_present settings
          utcOf st s1 e hp lp hloc
        obtain ⟨-, hmono, -⟩ := foldEntries_spec settings utcOf rest s1 st' h
        obtain ⟨l2, hl2, hid2⟩ := hmono l0 hl0
        exact ⟨l2, hl2, hid2.trans hid0⟩
      · exact ih s1 st' h e he lp hloc

lemma processCourt_ok_exists (ec ec2 : EntryCtx)
    (hs : ec2.settings = ec.settings) (hlp : ec2.lp = ec.lp)
    (st st1 st2 : SyncSt) (c : CourtPayload)
    (h : processCourt ec st c = .ok st1) :
    ∃ st2', processCourt ec2 st2 c = .ok st2' := by
  unfold processCourt at h ⊢
  rw [hs, hlp]
  cases hid : c.id with
  | none => exact ⟨st2, rfl⟩
  | some cid =>
    rw [hid] at h
    dsimp only at h ⊢
    by_cases hempty : cid = ""
    · rw [if_pos hempty]
      exact ⟨st2, rfl⟩
    · rw [if_neg hempty] at h ⊢
      by_cases hsp : sportExcluded ec.settings c = true
      · rw [if_pos hsp]
        exact ⟨st2, rfl⟩
      · rw [if_neg hsp] at h ⊢
        cases hdur : resolveDuration c ec.lp with
        | error e => rw [hdur] at h; cases h
        | ok dur =>
          rw [hdur] at h
          simp only [hdur]
          dsimp only at h ⊢
          cases hav : c.availableSlots with
          | none => exact ⟨st2, rfl⟩
          | some inner =>
            cases inner with
            | none => rw [hav] at h; cases h
            | some raws => exact ⟨_, rfl⟩

lemma foldCourts_ok_exists (ec ec2 : EntryCtx)
    (hs : ec2.settings = ec.settings) (hlp : ec2.lp = ec.lp) :
    ∀ (courts : List CourtPayload) (st st1 st2 : SyncSt),
      courts.foldl (stepCourt ec) (.ok st) = .ok st1 →
      ∃ st2', courts.foldl (stepCourt ec2) (.ok st2) = .ok st2' := by
  intro courts
  induction courts with
  | nil => intro st st1 st2 h; exact ⟨st2, rfl⟩
  | cons c rest ih =>
    intro st st1 st2 h
    rw [List.foldl_cons,
      show stepCourt ec (.ok st) c = processCourt ec st c from rfl] at h
    cases hc : processCourt ec st c with
    | error err => rw [hc, foldCourts_error] at h; cases h
    | ok s1 =>
      rw [hc] at h
      obtain ⟨s2', hs2'⟩ := processCourt_ok_exists ec ec2 hs hlp st s1 st2 c hc
      obtain ⟨st2', hst2'⟩ := ih s1 st1 s2' h
      refine ⟨st2', ?_⟩
      rw [List.foldl_cons,
        show stepCourt ec2 (.ok st2) c = processCourt ec2 st2 c from rfl,
        hs2']
      exact hst2'

lemma processEntry_ok_exists (settings : Settings)
    (utcOf : String → DateTime → DateTime) (st st1 st2 : SyncSt) (e : Entry)
    (h : processEntry settings utcOf st e = .ok st1)
    (hpres : ∀ lp, e.location = some lp →
      ∃ l ∈ st2.locations, l.id = lp.id) :
    ∃ st2', processEntry settings utcOf st2 e = .ok st2' := by
  unfold processEntry at h ⊢
  cases hloc : e.location with
  | none => exact ⟨st2, rfl⟩
  | some lp =>
    rw [hloc] at h
    dsimp only at h ⊢
    obtain ⟨l0, hl0, hid0⟩ := hpres lp hloc
    have hfind : (st2.locations.find? (fun l => l.id = lp.id)).isSome := by
      rw [List.find?_isSome]
      exact ⟨l0, hl0, by simp [hid0]⟩
    cases hf2 : st2.locations.find? (fun l => l.id = lp.id) with
    | none => rw [hf2] at hfind; cases hfind
    | some lfound =>
      cases hup : upsertLocation st.locations lp with
      | error err => rw [hup] at h; cases h
      | ok pr =>
        obtain ⟨locs', loc⟩ := pr
        rw [hup] at h
        dsimp only at h
        have hup2 : ∃ locs2 loc2,
            upsertLocation st2.locations lp = .ok (locs2, loc2) := by
          unfold upsertLocation
          rw [hf2]
          exact ⟨_, _, rfl⟩
        obtain ⟨locs2, loc2, hup2⟩ := hup2
        rw [hup2]
        dsimp only
        cases himg : lp.images with
        | some inner =>
          cases inner with
          | none => rw [himg] at h; cases h
          | some img =>
            rw [himg] at h
            dsimp only at h ⊢
            cases hco : lp.courts with
            | none => exact ⟨_, rfl⟩
            | some cinner =>
              cases cinner with
              | none => rw [hco] at h; cases h
              | some courts =>
                rw [hco] at h
                dsimp only at h
                apply foldCourts_ok_exists _ _ _ _ courts _ _ _ h <;> rfl
        | none =>
          rw [himg] at h
          dsimp only at h ⊢
          cases hco : lp.courts with
          | none => exact ⟨_, rfl⟩
          | some cinner =>
            cases cinner with
            | none => rw [hco] at h; cases h
            | some courts =>
              rw [hco] at h
              dsimp only at h
              apply foldCourts_ok_exists _ _ _ _ courts _ _ _ h <;> rfl

lemma foldEntries_ok_exists (settings : Settings)
    (utcOf : String → DateTime → DateTime) :
    ∀ (payload : List Entry) (st st1 st2 : SyncSt),
      payload.foldl (stepEntry settings utcOf) (.ok st) = .ok st1 →
      (∀ e ∈ payload, ∀ lp, e.location = some lp →
        ∃ l ∈ st2.locations, l.id = lp.id) →
      ∃ st2', payload.foldl (stepEntry settings utcOf) (.ok st2) = .ok st2' := by
  intro payload
  induction payload with
  | nil => intro st st1 st2 h hpres; exact ⟨st2, rfl⟩
  | cons e rest ih =>
    intro st st1 st2 h hpres
    rw [List.foldl_cons,
      show stepEntry settings utcOf (.ok st) e =
        processEntry settings utcOf st e from rfl] at h
    cases hp : processEntry settings utcOf st e with
    | error err => rw [hp, foldEntries_error] at h; cases h
    | ok s1 =>
      rw [hp] at h
      obtain ⟨s2', hs2'⟩ := processEntry_ok_exists settings utcOf st s1 st2 e
        hp (hpres e (List.mem_cons_self e rest))
      have hmono := (processEntry_spec settings utcOf st2 s2' e hs2').2.1
      have hpres' : ∀ e2 ∈ rest, ∀ lp, e2.location = some lp →
          ∃ l ∈ s2'.locations, l.id = lp.id := by
        intro e2 he2 lp hlp
        obtain ⟨l0, hl0, hid0⟩ :=
          hpres e2 (List.mem_cons_of_mem e he2) lp hlp
        obtain ⟨l2, hl2, hid2⟩ := hmono l0 hl0
        exact ⟨l2, hl2, hid2.trans hid0⟩
      obtain ⟨st2', hst2'⟩ := ih s1 st1 s2' h hpres'
      refine ⟨st2', ?_⟩
      rw [List.foldl_cons,
        show stepEntry settings utcOf (.ok st2) e =
          processEntry settings utcOf st2 e from rfl, hs2']
      exact hst2'

/-- C2.  Idempotence: against a store satisfying the key-uniqueness
invariant, running `sync_availability` a second time with the same payload on
the state the first run produced stages no inserts, performs no deletions,
and returns an empty new-record list. -/
theorem sync_idempotent (utcOf : String → DateTime → DateTime)
    (settings : Settings) (db : DB) (payload : List Entry) (db1 : DB)
    (recs1 : List SlotRecord)
    (hdb : (db.slots.map AvailabilitySlot.key).Nodup)
    (h1 : syncAvailability utcOf settings db payload = .ok (db1, recs1)) :
    ∃ st2, syncCore utcOf settings db1 payload = .ok st2 ∧
      st2.addedRows = [] ∧
      st2.newRecords = [] ∧
      deleteStale st2.existingRows st2.incomingKeys = st2.existingRows ∧
      syncAvailability utcOf settings db1 payload =
        .ok ({ db1 with locations := st2.locations,
                        slots := st2.existingRows }, []) := by
  unfold syncAvailability at h1
  cases hc1 : syncCore utcOf settings db payload with
  | error e => rw [hc1] at h1; cases h1
  | ok st1 =>
    rw [hc1] at h1
    dsimp only at h1
    cases h1
    obtain ⟨hE1, -, hA1, -, hI1⟩ := syncCore_spec utcOf settings db payload st1 hc1
    have hE1' : st1.existingRows.map AvailabilitySlot.key =
        db.slots.map AvailabilitySlot.key := hE1
    have hA1' : st1.addedRows.map AvailabilitySlot.key =
        (incomingKeyList settings payload).filter
          (fun k => !hasKeyB db.slots k) := by simpa [initSt] using hA1
    have hI1' : ∀ k, k ∈ st1.incomingKeys ↔
        k ∈ incomingKeyList settings payload := by
      intro k; simpa [initSt] using hI1 k
    have hexnd1 : (st1.existingRows.map AvailabilitySlot.key).Nodup := by
      rw [hE1']; exact hdb
    have hdb1keys : ∀ k,
        k ∈ (deleteStale st1.existingRows st1.incomingKeys ++
          st1.addedRows).map AvailabilitySlot.key ↔
        k ∈ incomingKeyList settings payload ∨
          (k ∈ db.slots.map AvailabilitySlot.key ∧
            k ∈ incomingKeyList settings payload) := by
      intro k
      rw [List.map_append, List.mem_append,
        deleteStale_eq_filter _ _ hexnd1, map_key_filter, hE1', hA1']
      simp only [List.mem_filter, decide_eq_true_eq, Bool.not_eq_true',
        hasKeyB_eq_decide, decide_eq_false_iff_not]
      constructor
      · rintro (⟨hmem, hks⟩ | ⟨hin, -⟩)
        · exact Or.inr ⟨hmem, (hI1' k).mp hks⟩
        · exact Or.inl hin
      · rintro (hin | ⟨hmem, hin⟩)
        · by_cases hmem : k ∈ db.slots.map AvailabilitySlot.key
          · exact Or.inl ⟨hmem, (hI1' k).mpr hin⟩
          · exact Or.inr ⟨hin, hmem⟩
        · exact Or.inl ⟨hmem, (hI1' k).mpr hin⟩
    have hsub : ∀ k, k ∈ (deleteStale st1.existingRows st1.incomingKeys ++
        st1.addedRows).map AvailabilitySlot.key →
        k ∈ incomingKeyList settings payload := by
      intro k hk
      rcases (hdb1keys k).mp hk with h | ⟨-, h⟩ <;> exact h
    have hsup : ∀ k, k ∈ incomingKeyList settings payload →
        k ∈ (deleteStale st1.existingRows st1.incomingKeys ++
          st1.addedRows).map AvailabilitySlot.key := by
      intro k hk
      exact (hdb1keys k).mpr (Or.inl hk)
    have hpres := syncCore_locations_present settings utcOf payload
      (initSt db) st1 hc1
    obtain ⟨st2, hc2⟩ := foldEntries_ok_exists settings utcOf payload
      (initSt db) st1
      (initSt { db with locations := st1.locations, slots := deleteStale st1.existingRows st1.incomingKeys ++ st1.addedRows }) hc1 hpres
    obtain ⟨hE2, -, hA2, hN2, hI2⟩ := syncCore_spec utcOf settings
      { db with locations := st1.locations, slots := deleteStale st1.existingRows st1.incomingKeys ++ st1.addedRows } payload st2 hc2
    have hfilter2 : (incomingKeyList settings payload).filter
        (fun k => !hasKeyB (deleteStale st1.existingRows st1.incomingKeys ++
          st1.addedRows) k) = [] := by
      rw [List.filter_eq_nil_iff]
      intro k hk
      simp only [Bool.not_eq_true', Bool.not_eq_false, hasKeyB_eq_decide,
        decide_eq_true_eq]
      exact hsup k hk
    have hadd2m : st2.addedRows.map AvailabilitySlot.key = [] := by
      have h2 : st2.addedRows.map AvailabilitySlot.key =
          (incomingKeyList settings payload).filter
            (fun k => !hasKeyB (deleteStale st1.existingRows st1.incomingKeys ++
              st1.addedRows) k) := by
        simpa [initSt] using hA2
      rw [h2, hfilter2]
    have hadd2 : st2.addedRows = [] := List.map_eq_nil_iff.mp hadd2m
    have hnew2m : st2.newRecords.map SlotRecord.key = [] := by
      have h2 : st2.newRecords.map SlotRecord.key =
          (incomingKeyList settings payload).filter
            (fun k => !hasKeyB (deleteStale st1.existingRows st1.incomingKeys ++
              st1.addedRows) k) := by
        simpa [initSt] using hN2
      rw [h2, hfilter2]
    have hnew2 : st2.newRecords = [] := List.map_eq_nil_iff.mp hnew2m
    have hdel2 : deleteStale st2.existingRows st2.incomingKeys =
        st2.existingRows := by
      apply deleteStale_all_kept
      intro r hr
      have hrk : r.key ∈ st2.existingRows.map AvailabilitySlot.key :=
        List.mem_map_of_mem _ hr
      rw [hE2] at hrk
      have hin : r.key ∈ incomingKeyList settings payload := by
        apply hsub
        simpa [initSt] using hrk
      rw [hI2 r.key]
      exact Or.inr hin
    have hc2s : syncCore utcOf settings { db with locations := st1.locations, slots := deleteStale st1.existingRows st1.incomingKeys ++ st1.addedRows } payload = .ok st2 := hc2
    refine ⟨st2, hc2s, hadd2, hnew2, hdel2, ?_⟩
    unfold syncAvailability
    rw [hc2s]
    dsimp only
    rw [hdel2, hadd2, hnew2, List.append_nil]

/-- C2, witness: idempotence applied to the one-slot snapshot against an
empty store. -/
theorem sync_idempotent_witness :
    (emptyDB.slots.map AvailabilitySlot.key).Nodup ∧
    (∃ db1 recs1,
      syncAvailability utcOf0 settings0 emptyDB simplePayload = .ok (db1, recs1) ∧
      ∃ st2, syncCore utcOf0 settings0 db1 simplePayload = .ok st2 ∧
        st2.addedRows = [] ∧
        st2.newRecords = [] ∧
        deleteStale st2.existingRows st2.incomingKeys = st2.existingRows ∧
        syncAvailability utcOf0 settings0 db1 simplePayload =
          .ok ({ db1 with locations := st2.locations,
                          slots := st2.existingRows }, [])) := by
  refine ⟨by decide, _, _, rfl, ?_⟩
  exact sync_idempotent utcOf0 settings0 emptyDB simplePayload _ _
    (by decide) rfl

/-! ### Per-record parse resilience -/

lemma processSlot_badstr (ec : EntryCtx) (cc : CourtCtx) (st : SyncSt)
    (bad : String) (hbad : parseDT bad = none) :
    processSlot ec cc st bad = st := by
  unfold processSlot
  rw [hbad]

lemma foldSlots_skip_bad (ec : EntryCtx) (cc : CourtCtx)
    (raws1 raws2 : List String) (bad : String) (hbad : parseDT bad = none)
    (st : SyncSt) :
    (raws1 ++ bad :: raws2).foldl (processSlot ec cc) st =
      (raws1 ++ raws2).foldl (processSlot ec cc) st := by
  rw [List.foldl_append, List.foldl_append, List.foldl_cons,
    processSlot_badstr ec cc _ bad hbad]

lemma processCourt_slots_congr (ec : EntryCtx) (st : SyncSt)
    (court : CourtPayload) (raws1 raws2 : List String) (bad : String)
    (hbad : parseDT bad = none) :
    processCourt ec st
      { court with availableSlots := some (some (raws1 ++ bad :: raws2)) } =
    processCourt ec st
      { court with availableSlots := some (some (raws1 ++ raws2)) } := by
  unfold processCourt
  dsimp only
  rw [show sportExcluded ec.settings
        { court with availableSlots := some (some (raws1 ++ raws2)) } =
      sportExcluded ec.settings
        { court with availableSlots := some (some (raws1 ++ bad :: raws2)) }
      from rfl,
    show resolveDuration
        { court with availableSlots := some (some (raws1 ++ raws2)) } ec.lp =
      resolveDuration
        { court with availableSlots := some (some (raws1 ++ bad :: raws2)) }
        ec.lp from rfl]
  generalize sportExcluded ec.settings
    { court with availableSlots := some (some (raws1 ++ bad :: raws2)) } = sExc
  generalize resolveDuration
    { court with availableSlots := some (some (raws1 ++ bad :: raws2)) }
    ec.lp = rd
  cases court.id with
  | none => rfl
  | some cid =>
    show (if cid = "" then Except.ok st else _) =
      (if cid = "" then Except.ok st else _)
    by_cases hempty : cid = ""
    · rw [if_pos hempty, if_pos hempty]
    · rw [if_neg hempty, if_neg hempty]
      cases sExc with
      | true => rfl
      | false =>
        cases rd with
        | error e => rfl
        | ok dur =>
          show Except.ok ((raws1 ++ bad :: raws2).foldl (processSlot ec _) st) =
            Except.ok ((raws1 ++ raws2).foldl (processSlot ec _) st)
          rw [foldSlots_skip_bad ec _ raws1 raws2 bad hbad]

lemma processCourt_badid (ec : EntryCtx) (st : SyncSt) (bad : CourtPayload)
    (h : truthyS bad.id = false) : processCourt ec st bad = .ok st := by
  unfold processCourt
  cases hid : bad.id with
  | none => rfl
  | some s =>
    rw [hid] at h
    unfold truthyS at h
    rw [decide_eq_false_iff_not, Classical.not_not] at h
    dsimp only
    rw [if_pos h]

lemma foldCourts_congr_at (ec : EntryCtx) (cs1 cs2 : List CourtPayload)
    (cA cB : CourtPayload)
    (h : ∀ st : SyncSt, processCourt ec st cA = processCourt ec st cB)
    (acc : Except Unit SyncSt) :
    (cs1 ++ cA :: cs2).foldl (stepCourt ec) acc =
      (cs1 ++ cB :: cs2).foldl (stepCourt ec) acc := by
  rw [List.foldl_append, List.foldl_append, List.foldl_cons, List.foldl_cons]
  congr 1
  cases cs1.foldl (stepCourt ec) acc with
  | error e => rfl
  | ok st => exact h st

lemma foldCourts_skip_court (ec : EntryCtx) (cs1 cs2 : List CourtPayload)
    (cBad : CourtPayload) (h : ∀ st : SyncSt, processCourt ec st cBad = .ok st)
    (acc : Except Unit SyncSt) :
    (cs1 ++ cBad :: cs2).foldl (stepCourt ec) acc =
      (cs1 ++ cs2).foldl (stepCourt ec) acc := by
  rw [List.foldl_append, List.foldl_append, List.foldl_cons]
  congr 1
  cases cs1.foldl (stepCourt ec) acc with
  | error e => rfl
  | ok st => exact h st

/-- Equality of `processEntry` on two entries that share a location payload
except for their court lists, given matching court folds. -/
lemma processEntry_courts_congr (settings : Settings)
    (utcOf : String → DateTime → DateTime) (st : SyncSt)
    (lp : LocationPayload) (csA csB : List CourtPayload)
    (h : ∀ (ec : EntryCtx) (acc : Except Unit SyncSt),
      csA.foldl (stepCourt ec) acc = csB.foldl (stepCourt ec) acc) :
    processEntry settings utcOf st ⟨some { lp with courts := some (some csA) }⟩ =
      processEntry settings utcOf st ⟨some { lp with courts := some (some csB) }⟩ := by
  unfold processEntry
  dsimp only
  rw [show upsertLocation st.locations { lp with courts := some (some csB) } =
      upsertLocation st.locations { lp with courts := some (some csA) }
      from rfl]
  cases hup : upsertLocation st.locations { lp with courts := some (some csA) } with
  | error e => rfl
  | ok pr =>
    obtain ⟨locs', loc⟩ := pr
    dsimp only
    cases lp.images with
    | some inner =>
      cases inner with
      | none => rfl
      | some img => exact h _ _
    | none => exact h _ _

lemma syncAvailability_entry_congr (utcOf : String → DateTime → DateTime)
    (settings : Settings) (db : DB) (p1 p2 : List Entry) (e1 e2 : Entry)
    (h : ∀ st, processEntry settings utcOf st e1 =
      processEntry settings utcOf st e2) :
    syncAvailability utcOf settings db (p1 ++ e1 :: p2) =
      syncAvailability utcOf settings db (p1 ++ e2 :: p2) := by
  unfold syncAvailability syncCore
  rw [List.foldl_append, List.foldl_append, List.foldl_cons, List.foldl_cons]
  have hstep : stepEntry settings utcOf
      (p1.foldl (stepEntry settings utcOf)
        (.ok ⟨db.locations, db.slots, [], [], []⟩)) e1 =
      stepEntry settings utcOf
        (p1.foldl (stepEntry settings utcOf)
          (.ok ⟨db.locations, db.slots, [], [], []⟩)) e2 := by
    cases p1.foldl (stepEntry settings utcOf)
        (.ok (⟨db.locations, db.slots, [], [], []⟩ : SyncSt)) with
    | error e => rfl
    | ok st => exact h st
  rw [hstep]

/-- An entry whose location payload carries the given court list. -/
def courtsEntry (lp : LocationPayload) (cs : List CourtPayload) : Entry :=
  ⟨some { lp with courts := some (some cs) }⟩

/-- A court block with the given raw slot list. -/
def withSlots (court : CourtPayload) (raws : List String) : CourtPayload :=
  { court with availableSlots := some (some raws) }

/-- C8.  Per-record parse resilience: a slot string that fails to parse, or a
court block with a missing or empty id, is skipped locally — the sync of a
payload containing such an entry equals the sync of the payload with the
entry removed, for every store and every surrounding payload. -/
theorem parse_resilience :
    (∀ (utcOf : String → DateTime → DateTime) (settings : Settings) (db : DB)
       (p1 p2 : List Entry) (lp : LocationPayload)
       (cs1 cs2 : List CourtPayload) (court : CourtPayload)
       (raws1 raws2 : List String) (bad : String),
      parseDT bad = none →
      syncAvailability utcOf settings db
        (p1 ++ courtsEntry lp
          (cs1 ++ withSlots court (raws1 ++ bad :: raws2) :: cs2) :: p2) =
      syncAvailability utcOf settings db
        (p1 ++ courtsEntry lp
          (cs1 ++ withSlots court (raws1 ++ raws2) :: cs2) :: p2)) ∧
    (∀ (utcOf : String → DateTime → DateTime) (settings : Settings) (db : DB)
       (p1 p2 : List Entry) (lp : LocationPayload)
       (cs1 cs2 : List CourtPayload) (badCourt : CourtPayload),
      truthyS badCourt.id = false →
      syncAvailability utcOf settings db
        (p1 ++ courtsEntry lp (cs1 ++ badCourt :: cs2) :: p2) =
      syncAvailability utcOf settings db
        (p1 ++ courtsEntry lp (cs1 ++ cs2) :: p2)) := by
  constructor
  · intro utcOf settings db p1 p2 lp cs1 cs2 court raws1 raws2 bad hbad
    apply syncAvailability_entry_congr
    intro st
    apply processEntry_courts_congr
    intro ec acc
    exact foldCourts_congr_at ec cs1 cs2 _ _
      (fun st0 => processCourt_slots_congr ec st0 court raws1 raws2 bad hbad)
      acc
  · intro utcOf settings db p1 p2 lp cs1 cs2 badCourt hbad
    apply syncAvailability_entry_congr
    intro st
    apply processEntry_courts_congr
    intro ec acc
    exact foldCourts_skip_court ec cs1 cs2 badCourt
      (fun st0 => processCourt_badid ec st0 badCourt hbad) acc

/-- C8, witness: both parts applied to a concrete snapshot (the malformed
timestamp "oops" and a court block with an empty id). -/
theorem parse_resilience_witness :
    parseDT "oops" = none ∧
    truthyS (some "") = false ∧
    syncAvailability utcOf0 settings0 emptyDB
      [courtsEntry dupLoc
        [withSlots dupCourt (["2025-10-27 09:00:00"] ++ "oops" :: [])]] =
    syncAvailability utcOf0 settings0 emptyDB
      [courtsEntry dupLoc
        [withSlots dupCourt (["2025-10-27 09:00:00"] ++ [])]] ∧
    syncAvailability utcOf0 settings0 emptyDB
      [courtsEntry dupLoc ([] ++ { dupCourt with id := some "" } :: [dupCourt])] =
    syncAvailability utcOf0 settings0 emptyDB
      [courtsEntry dupLoc ([] ++ [dupCourt])] := by
  refine ⟨by decide, by decide, ?_, ?_⟩
  · exact parse_resilience.1 utcOf0 settings0 emptyDB [] [] dupLoc [] []
      dupCourt ["2025-10-27 09:00:00"] [] "oops" (by decide)
  · exact parse_resilience.2 utcOf0 settings0 emptyDB [] [] dupLoc []
      [dupCourt] { dupCourt with id := some "" } (by decide)

/-! ### Notification failure isolation -/

lemma procWatches_oracle (committed : List Alert)
    (f1 f2 : WatchRule → SlotRecord → Bool) (now : DateTime)
    (s : SlotRecord) : ∀ ws : List WatchRule,
    procWatches committed f1 now s ws = procWatches committed f2 now s ws := by
  intro ws
  induction ws with
  | nil => rfl
  | cons w rest ih =>
    unfold procWatches
    rw [ih]
    by_cases hm : matchWatch s w
    · rw [if_pos hm, if_pos hm]
      by_cases hc : hasCommittedAlert committed w.id s
      · rw [if_pos hc, if_pos hc]
      · rw [if_neg hc, if_neg hc]
        dsimp only
        cases f1 (bumpWatch now w) s <;> cases f2 (bumpWatch now w) s <;> rfl
    · rw [if_neg hm, if_neg hm]

/-- C7.  Notification failure isolation: the entire observable outcome of
`create_alerts` — the persisted alert rows, the watch trigger bookkeeping and
the returned alert list — is independent of which notification sends raise
(the `try/except` swallows the failure after the alert row is staged and the
bookkeeping applied), and every returned alert is persisted: the committed
alert table after the cycle is the old table plus exactly the returned
list. -/
theorem notification_failure_isolated :
    (∀ (f1 f2 : WatchRule → SlotRecord → Bool) (now : DateTime) (db : DB)
       (slots : List SlotRecord),
      createAlerts f1 now db slots = createAlerts f2 now db slots) ∧
    (∀ (f : WatchRule → SlotRecord → Bool) (now : DateTime) (db : DB)
       (slots : List SlotRecord),
      (createAlerts f now db slots).1.alerts =
        db.alerts ++ (createAlerts f now db slots).2) := by
  constructor
  · intro f1 f2 now db slots
    unfold createAlerts
    have hfun : (fun (acc : List WatchRule × List Alert) s =>
        let t := procWatches db.alerts f1 now s acc.1
        (t.1, acc.2 ++ t.2)) =
        (fun (acc : List WatchRule × List Alert) s =>
          let t := procWatches db.alerts f2 now s acc.1
          (t.1, acc.2 ++ t.2)) := by
      funext acc s
      rw [procWatches_oracle db.alerts f1 f2 now s acc.1]
    rw [hfun]
  · intro f now db slots
    rfl

/-! ### Location upsert -/

/-- C9 (amended).  The existing-row branch of `upsert_location` backfills a
field only when the payload supplies it: a payload that omits a key leaves
the stored name, address and timezone unchanged (a supplied key overwrites,
including with null); the image field is never cleared (a falsy incoming
thumbnail keeps the stored value); and neither the upsert nor the
reconciliation path ever deletes a Location row. -/
theorem upsert_location_amended :
    (∀ (locs : List Location) (p : LocationPayload) (locs' : List Location)
       (loc : Location) (old : Location),
      upsertLocation locs p = .ok (locs', loc) →
      locs.find? (fun l => l.id = p.id) = some old →
      loc.name = fieldGet p.name old.name ∧
      loc.address = fieldGet p.formattedAddress old.address ∧
      loc.timezone = fieldGet p.timezone old.timezone ∧
      (p.name = none → loc.name = old.name) ∧
      (p.formattedAddress = none → loc.address = old.address) ∧
      (p.timezone = none → loc.timezone = old.timezone) ∧
      (truthyS old.imageUrl = true → truthyS loc.imageUrl = true) ∧
      (∀ l ∈ locs, ∃ l2 ∈ locs', l2.id = l.id)) ∧
    (∀ (utcOf : String → DateTime → DateTime) (settings : Settings) (db : DB)
       (payload : List Entry) (db' : DB) (recs : List SlotRecord),
      syncAvailability utcOf settings db payload = .ok (db', recs) →
      ∀ l ∈ db.locations, ∃ l2 ∈ db'.locations, l2.id = l.id) := by
  constructor
  · intro locs p locs' loc old hup hfind
    have hmono := (upsertLocation_mono locs p locs' loc hup).1
    unfold upsertLocation at hup
    rw [hfind] at hup
    dsimp only at hup
    cases hup
    refine ⟨rfl, rfl, rfl, ?_, ?_, ?_, ?_, hmono⟩
    · intro hn; rw [hn]; rfl
    · intro hn; rw [hn]; rfl
    · intro hn; rw [hn]; rfl
    · intro htr
      unfold pyOrS
      split_ifs with h
      · exact h
      · exact htr
  · intro utcOf settings db payload db' recs h l hl
    unfold syncAvailability at h
    cases hc : syncCore utcOf settings db payload with
    | error e => rw [hc] at h; cases h
    | ok st =>
      rw [hc] at h
      dsimp only at h
      cases h
      obtain ⟨-, hmono, -⟩ := syncCore_spec utcOf settings db payload st hc
      exact hmono l hl

/-- A fully-populated location row. -/
def locFull : Location := ⟨"L1", some "Name", some "Addr", some "TZ", some "IMG"⟩

/-- A payload that supplies the formatted address key with a null value. -/
def nullingPayload : LocationPayload :=
  ⟨"L1", some (some "Name2"), some none, none, none, none, none⟩

/-- C9, counterexample to the claim as stated: a payload that explicitly
nulls `formattedAddress` clears the stored address of an existing location
row (`payload.get("formattedAddress", location.address)` returns the null),
so a populated field does not always remain populated. -/
theorem upsert_location_cex :
    (upsertLocation [locFull] nullingPayload).map (fun pr => pr.2.address) =
      .ok none ∧
    locFull.address = some "Addr" := ⟨rfl, rfl⟩

/-- A payload that omits every optional key. -/
def omitPayload : LocationPayload := ⟨"L1", none, none, none, none, none, none⟩

/-- C9, witness: the amended theorem applied to a payload that omits all
keys, which leaves every stored field unchanged. -/
theorem upsert_location_amended_witness :
    ∃ locs' loc, upsertLocation [locFull] omitPayload = .ok (locs', loc) ∧
      loc.name = locFull.name ∧ loc.address = locFull.address ∧
      loc.timezone = locFull.timezone ∧ truthyS loc.imageUrl = true := by
  have h := upsert_location_amended.1 [locFull] omitPayload _ _ _ rfl rfl
  exact ⟨_, _, rfl, h.2.2.2.1 rfl, h.2.2.2.2.1 rfl, h.2.2.2.2.2.1 rfl,
    h.2.2.2.2.2.2.1 (by decide)⟩

/-! ### At-most-once alerting -/

/-- A watch with its trigger bookkeeping fields blanked; the matching
predicate and the alert identity depend only on this part. -/
def scrubW (w : WatchRule) : WatchRule :=
  { w with triggerCount := none, lastTriggeredAt := none }

lemma scrubW_bump (now : DateTime) (w : WatchRule) :
    scrubW (bumpWatch now w) = scrubW w := rfl

lemma matchWatch_scrub (s : SlotRecord) (w : WatchRule) :
    matchWatch s (scrubW w) = matchWatch s w := rfl

lemma scrubW_id (w : WatchRule) : (scrubW w).id = w.id := rfl

/-- The per-slot match-and-dedup filter of `create_alerts`. -/
def alertPred (committed : List Alert) (s : SlotRecord) (w : WatchRule) :
    Bool :=
  matchWatch s w && !hasCommittedAlert committed w.id s

lemma procWatches_alerts (committed : List Alert)
    (f : WatchRule → SlotRecord → Bool) (now : DateTime) (s : SlotRecord) :
    ∀ ws : List WatchRule,
      (procWatches committed f now s ws).2 =
        (ws.filter (alertPred committed s)).map (fun w => mkAlert w s) := by
  intro ws
  induction ws with
  | nil => rfl
  | cons w rest ih =>
    unfold procWatches
    by_cases hm : matchWatch s w
    · rw [if_pos hm]
      by_cases hc : hasCommittedAlert committed w.id s
      · rw [if_pos hc]
        dsimp only
        rw [List.filter_cons_of_neg (by simp [alertPred, hm, hc])]
        exact ih
      · rw [if_neg hc]
        dsimp only
        rw [List.filter_cons_of_pos (by simp [alertPred, hm, hc]),
          List.map_cons]
        cases f (bumpWatch now w) s
        · show mkAlert w s :: (procWatches committed f now s rest).2 = _
          rw [ih]
        · show mkAlert w s :: (procWatches committed f now s rest).2 = _
          rw [ih]
    · rw [if_neg hm]
      dsimp only
      rw [List.filter_cons_of_neg (by simp [alertPred, hm])]
      exact ih

lemma procWatches_ws_scrub (committed : List Alert)
    (f : WatchRule → SlotRecord → Bool) (now : DateTime) (s : SlotRecord) :
    ∀ ws : List WatchRule,
      ((procWatches committed f now s ws).1).map scrubW = ws.map scrubW := by
  intro ws
  induction ws with
  | nil => rfl
  | cons w rest ih =>
    unfold procWatches
    by_cases hm : matchWatch s w
    · rw [if_pos hm]
      by_cases hc : hasCommittedAlert committed w.id s
      · rw [if_pos hc]
        dsimp only
        rw [List.map_cons, List.map_cons, ih]
      · rw [if_neg hc]
        dsimp only
        cases f (bumpWatch now w) s
        · show (bumpWatch now w :: (procWatches committed f now s rest).1).map
              scrubW = _
          rw [List.map_cons, List.map_cons, scrubW_bump, ih]
        · show (bumpWatch now w :: (procWatches committed f now s rest).1).map
              scrubW = _
          rw [List.map_cons, List.map_cons, scrubW_bump, ih]
    · rw [if_neg hm]
      dsimp only
      rw [List.map_cons, List.map_cons, ih]

/-- The alert identity triples one slot contributes in one cycle. -/
def slotCycleTriples (committed : List Alert) (active : List WatchRule)
    (s : SlotRecord) : List (Nat × String × DateTime) :=
  (active.filter (alertPred committed s)).map
    (fun w => (w.id, s.courtId, s.slotTimeLocal))

lemma slotCycleTriples_scrub (committed : List Alert) (s : SlotRecord)
    (ws1 ws2 : List WatchRule) (h : ws1.map scrubW = ws2.map scrubW) :
    slotCycleTriples committed ws1 s = slotCycleTriples committed ws2 s := by
  have key : ∀ ws : List WatchRule, slotCycleTriples committed ws s =
      ((ws.map scrubW).filter (alertPred committed s)).map
        (fun w => (w.id, s.courtId, s.slotTimeLocal)) := by
    intro ws
    unfold slotCycleTriples
    rw [List.filter_map, List.map_map]
    have hp : (alertPred committed s ∘ scrubW) = alertPred committed s := by
      funext w; rfl
    have hq : ((fun w : WatchRule => (w.id, s.courtId, s.slotTimeLocal)) ∘
        scrubW) = fun w => (w.id, s.courtId, s.slotTimeLocal) := by
      funext w; rfl
    rw [hp, hq]
  rw [key ws1, key ws2, h]

/-- The alert identity triples one cycle's batch contributes. -/
def cycleTriples (committed : List Alert) (active : List WatchRule)
    (slots : List SlotRecord) : List (Nat × String × DateTime) :=
  slots.flatMap (slotCycleTriples committed active)

lemma mkAlert_triple (w : WatchRule) (s : SlotRecord) :
    (mkAlert w s).triple = (w.id, s.courtId, s.slotTimeLocal) := rfl

/-- The returned alert list of one cycle carries exactly the cycle's triple
walk. -/
lemma createAlerts_triples (f : WatchRule → SlotRecord → Bool)
    (now : DateTime) (db : DB) (slots : List SlotRecord) :
    ((createAlerts f now db slots).2).map Alert.triple =
      cycleTriples db.alerts (db.watches.filter (fun w => w.active)) slots := by
  unfold createAlerts cycleTriples
  dsimp only
  generalize hact : db.watches.filter (fun w => w.active) = active
  suffices hgen : ∀ (slots : List SlotRecord) (ws : List WatchRule)
      (acc : List Alert), ws.map scrubW = active.map scrubW →
      ((slots.foldl (fun (acc2 : List WatchRule × List Alert) s =>
        let t := procWatches db.alerts f now s acc2.1
        (t.1, acc2.2 ++ t.2)) (ws, acc)).2).map Alert.triple =
      acc.map Alert.triple ++ slots.flatMap (slotCycleTriples db.alerts active) by
    have h := hgen slots active [] rfl
    simpa using h
  intro slots
  induction slots with
  | nil => intro ws acc hws; simp
  | cons s rest ih =>
    intro ws acc hws
    rw [List.foldl_cons]
    dsimp only
    rw [ih _ _ (by rw [procWatches_ws_scrub, hws]),
      List.flatMap_cons, List.map_append, List.append_assoc]
    have h2 : ((procWatches db.alerts f now s ws).2).map Alert.triple =
        slotCycleTriples db.alerts active s := by
      rw [procWatches_alerts, List.map_map]
      rw [show (Alert.triple ∘ fun w => mkAlert w s) =
        fun w : WatchRule => (w.id, s.courtId, s.slotTimeLocal) from
        funext fun w => rfl]
      exact slotCycleTriples_scrub db.alerts s ws active hws
    rw [h2]

lemma matchWatch_locationId (s : SlotRecord) (w : WatchRule)
    (h : matchWatch s w = true) : w.locationId = s.locationId :=
  ((matchWatch_true_iff s w).mp h).2.1

lemma mem_slotCycleTriples (c : List Alert) (active : List WatchRule)
    (s : SlotRecord) (t : Nat × String × DateTime)
    (h : t ∈ slotCycleTriples c active s) :
    ∃ w ∈ active, matchWatch s w = true ∧
      hasCommittedAlert c w.id s = false ∧
      t = (w.id, s.courtId, s.slotTimeLocal) := by
  unfold slotCycleTriples at h
  rw [List.mem_map] at h
  obtain ⟨w, hw, ht⟩ := h
  rw [List.mem_filter] at hw
  have hp := hw.2
  unfold alertPred at hp
  rw [Bool.and_eq_true] at hp
  exact ⟨w, hw.1, hp.1, by simpa using hp.2, ht.symm⟩

lemma slotCycleTriples_nodup (c : List Alert) (active : List WatchRule)
    (s : SlotRecord) (hids : (active.map (fun w => w.id)).Nodup) :
    (slotCycleTriples c active s).Nodup := by
  unfold slotCycleTriples
  apply List.Nodup.map_on
  · intro w1 hw1 w2 hw2 heq
    have hid : w1.id = w2.id := by
      have := congrArg Prod.fst heq
      simpa using this
    exact List.inj_on_of_nodup_map hids
      (List.mem_of_mem_filter hw1) (List.mem_of_mem_filter hw2) hid
  · exact (List.Nodup.of_map _ hids).filter _

lemma cycleTriples_nodup (c : List Alert) (active : List WatchRule)
    (slots : List SlotRecord)
    (hids : (active.map (fun w => w.id)).Nodup)
    (hkeys : (slots.map SlotRecord.key).Nodup) :
    (cycleTriples c active slots).Nodup := by
  unfold cycleTriples
  induction slots with
  | nil => exact List.nodup_nil
  | cons s rest ih =>
    rw [List.map_cons, List.nodup_cons] at hkeys
    rw [List.flatMap_cons]
    refine List.Nodup.append (slotCycleTriples_nodup c active s hids)
      (ih hkeys.2) ?_
    intro t ht htr
    rw [List.mem_flatMap] at htr
    obtain ⟨s2, hs2, ht2⟩ := htr
    obtain ⟨w1, hw1, hm1, -, he1⟩ := mem_slotCycleTriples c active s t ht
    obtain ⟨w2, hw2, hm2, -, he2⟩ := mem_slotCycleTriples c active s2 t ht2
    have hid : w1.id = w2.id := by
      rw [he1] at he2
      exact congrArg Prod.fst he2
    have hww : w1 = w2 := List.inj_on_of_nodup_map hids hw1 hw2 hid
    have hkey : s.key = s2.key := by
      unfold SlotRecord.key
      have hc : s.courtId = s2.courtId := by
        rw [he1] at he2
        simpa using congrArg (fun p => p.2.1) he2
      have htm : s.slotTimeLocal = s2.slotTimeLocal := by
        rw [he1] at he2
        simpa using congrArg (fun p => p.2.2) he2
      have hloc : s.locationId = s2.locationId := by
        rw [← matchWatch_locationId s w1 hm1, hww]
        exact matchWatch_locationId s2 w2 hm2
      rw [hc, htm, hloc]
    exact hkeys.1 (hkey ▸ List.mem_map_of_mem SlotRecord.key hs2)

lemma cycleTriples_fresh (c : List Alert) (active : List WatchRule)
    (slots : List SlotRecord) (t : Nat × String × DateTime)
    (ht : t ∈ cycleTriples c active slots) : t ∉ c.map Alert.triple := by
  unfold cycleTriples at ht
  rw [List.mem_flatMap] at ht
  obtain ⟨s, -, hts⟩ := ht
  obtain ⟨w, -, -, hnc, he⟩ := mem_slotCycleTriples c active s t hts
  intro hmem
  rw [List.mem_map] at hmem
  obtain ⟨a, ha, hat⟩ := hmem
  have : hasCommittedAlert c w.id s = true := by
    unfold hasCommittedAlert
    rw [List.any_eq_true]
    refine ⟨a, ha, ?_⟩
    rw [decide_eq_true_eq]
    rw [he] at hat
    unfold Alert.triple at hat
    exact ⟨congrArg Prod.fst hat,
      by simpa using congrArg (fun p => p.2.1) hat,
      by simpa using congrArg (fun p => p.2.2) hat⟩
  rw [this] at hnc
  cases hnc

lemma mergeWatches_ids (all upd : List WatchRule) :
    (mergeWatches all upd).map (fun w => w.id) =
      all.map (fun w => w.id) := by
  unfold mergeWatches
  rw [List.map_map]
  apply List.map_congr_left
  intro w _
  dsimp only [Function.comp]
  cases hf : upd.find? (fun u => u.id = w.id) with
  | none => rfl
  | some u =>
    have := List.find?_some hf
    rw [decide_eq_true_eq] at this
    exact this

lemma createAlerts_watch_ids (f : WatchRule → SlotRecord → Bool)
    (now : DateTime) (db : DB) (slots : List SlotRecord) :
    ((createAlerts f now db slots).1).watches.map (fun w => w.id) =
      db.watches.map (fun w => w.id) := by
  unfold createAlerts
  exact mergeWatches_ids db.watches _

lemma createAlerts_alerts_eq (f : WatchRule → SlotRecord → Bool)
    (now : DateTime) (db : DB) (slots : List SlotRecord) :
    ((createAlerts f now db slots).1).alerts =
      db.alerts ++ (createAlerts f now db slots).2 := rfl

/-- C3 (amended).  At-most-once alerting for duplicate-free batches: across
any sequence of alert cycles in which each cycle's new-slot batch has
pairwise-distinct identity keys, the persisted alert table never holds two
rows with the same `(watch_id, court_id, slot_time_local)` triple — the
dedup query (which sees only rows committed by previous cycles, the session
being `autoflush=False`) blocks every repeat across cycles, and within one
cycle distinct keys cannot produce a repeated triple. -/
theorem alert_at_most_once (f : WatchRule → SlotRecord → Bool)
    (now : DateTime) :
    ∀ (batches : List (List SlotRecord)) (db : DB),
      (db.watches.map (fun w => w.id)).Nodup →
      (db.alerts.map Alert.triple).Nodup →
      (∀ b ∈ batches, (b.map SlotRecord.key).Nodup) →
      ((runAlertCycles f now db batches).alerts.map Alert.triple).Nodup := by
  intro batches
  induction batches with
  | nil => intro db hw ha hb; exact ha
  | cons b rest ih =>
    intro db hw ha hb
    unfold runAlertCycles
    rw [List.foldl_cons]
    have hstep : (((createAlerts f now db b).1).alerts.map Alert.triple).Nodup := by
      rw [createAlerts_alerts_eq, List.map_append]
      have hactids : ((db.watches.filter (fun w => w.active)).map
          (fun w => w.id)).Nodup := by
        have hsub : List.Sublist
            ((db.watches.filter (fun w => w.active)).map (fun w => w.id))
            (db.watches.map (fun w => w.id)) :=
          List.Sublist.map _ (List.filter_sublist _)
        exact List.Nodup.sublist hsub hw
      refine List.Nodup.append ha ?_ ?_
      · rw [createAlerts_triples]
        exact cycleTriples_nodup _ _ b hactids (hb b (List.mem_cons_self b rest))
      · intro t htc htp
        rw [createAlerts_triples] at htp
        exact cycleTriples_fresh _ _ b t htp htc
    have hw' : (((createAlerts f now db b).1).watches.map
        (fun w => w.id)).Nodup := by
      rw [createAlerts_watch_ids]; exact hw
    exact ih _ hw' hstep (fun b2 hb2 => hb b2 (List.mem_cons_of_mem b hb2))

/-- An always-matching active watch on the duplicate slot's location. -/
def watchAll : WatchRule :=
  ⟨1, "loc-123", none, none, none, none, none, true, some 0, none⟩

/-- The canonical record of the duplicated slot. -/
def dupSlotRec : SlotRecord :=
  ⟨"loc-123", some "Mission Dolores", some "19th & Dolores", none,
    "America/Los_Angeles", "court-1", some "Court 1", none,
    ⟨2025, 10, 27, 9, 0, 0⟩, ⟨2025, 10, 27, 9, 0, 0⟩, some 90⟩

def dbWatch : DB := ⟨[], [], [watchAll], []⟩

def now0 : DateTime := ⟨2025, 10, 26, 12, 0, 0⟩

/-- C3, counterexample to the claim as stated: a single cycle whose batch
repeats one identity key (the situation a duplicate-key snapshot produces)
persists two Alert rows with the same triple, because the dedup query does
not see the row staged earlier in the same uncommitted cycle. -/
theorem alert_at_most_once_cex :
    ((createAlerts (fun _ _ => false) now0 dbWatch
        [dupSlotRec, dupSlotRec]).1.alerts.map Alert.triple) =
      [(1, "court-1", ⟨2025, 10, 27, 9, 0, 0⟩),
       (1, "court-1", ⟨2025, 10, 27, 9, 0, 0⟩)] ∧
    ¬ ((createAlerts (fun _ _ => false) now0 dbWatch
        [dupSlotRec, dupSlotRec]).1.alerts.map Alert.triple).Nodup :=
  ⟨rfl, by decide⟩

/-- C3, witness: the amended theorem applied to two consecutive cycles that
both carry the same single-slot batch; the second cycle is deduplicated
against the committed row. -/
theorem alert_at_most_once_witness :
    ((dbWatch.watches.map (fun w => w.id)).Nodup ∧
      (dbWatch.alerts.map Alert.triple).Nodup ∧
      (∀ b ∈ [[dupSlotRec], [dupSlotRec]],
        (b.map SlotRecord.key).Nodup)) ∧
    ((runAlertCycles (fun _ _ => false) now0 dbWatch
        [[dupSlotRec], [dupSlotRec]]).alerts.map Alert.triple).Nodup ∧
    (runAlertCycles (fun _ _ => false) now0 dbWatch
        [[dupSlotRec], [dupSlotRec]]).alerts.length = 1 := by
  refine ⟨⟨by decide, by decide, by decide⟩, ?_, by rfl⟩
  exact alert_at_most_once (fun _ _ => false) now0 [[dupSlotRec], [dupSlotRec]]
    dbWatch (by decide) (by decide) (by decide)
